import Mathlib

/-!
# Smart-Routine-Scheduler: verification of the hybrid timetable engine

Shallow embedding of the scheduling engine of the repository
(`src/project/project/src/utils/hybridOptimizer.ts`, the genetic-algorithm
module `src/unnamed/part_002`, and the CP-SAT solver in
`src/project/project/src/data/demoData.ts`), together with proofs settling
the claims about it.

Modelling conventions (applied uniformly, each noted again at the definition
it concerns):
* JavaScript numbers used for fitness values, rates and ratios are modelled
  as `ℚ` (the code performs only field operations on them); division by zero
  follows the Lean convention `x / 0 = 0`, which the theorems below never
  depend on.
* Times of day (`startTime`/`endTime` strings `"HH:MM"` in the source,
  compared via `Date` parsing or `localeCompare` — both agree with numeric
  order for zero-padded times) are modelled as minutes `Nat`.
* JavaScript `Map`/`Set`/object keys are modelled as association lists that
  preserve insertion order, with `set`/`add` given the same
  replace-or-append semantics.  String-concatenated occupancy keys such as
  `` `${teacherId}_${roomId}_${day}_${startTime}` `` are modelled as tuples
  (i.e. ids are treated as opaque and collision-free, which is the intent
  documented in §9 of the spec).
* `undefined`-able fields are `Option`; a missing `taughtSubjectIds` behaves
  like `[]` under `?.includes`, so it is modelled as a plain list.

The file is organised as definitions first (data model, GA module, hybrid
orchestrator, CP-SAT solver, concrete scenario data), then all lemmas and
claim theorems.
-/

set_option maxRecDepth 10000

/-- Subject / room kind, the string union `'theory' | 'lab'` of the source. -/
inductive SType where
  | theory
  | lab
deriving DecidableEq, Repr

/-- `TimeSlot` of `types/timetable.ts`; times in minutes. -/
structure TimeSlot where
  id : String
  day : String
  startTime : Nat
  endTime : Nat
deriving DecidableEq, Repr

/-- `Room` of `types/timetable.ts` (fields read by the engine). -/
structure Room where
  id : String
  type : SType
  capacity : Nat
  equipment : List String
deriving DecidableEq, Repr

/-- One entry of `Teacher.availability`. -/
structure Availability where
  day : String
  timeSlots : List String
deriving DecidableEq, Repr

/-- `Teacher` of `types/timetable.ts` (fields read by the engine).
`taughtSubjectIds` is optional in the source; `undefined?.includes(x)` is
falsy, identical to membership in `[]`, so it is modelled as a list. -/
structure Teacher where
  id : String
  taughtSubjectIds : List String
  departmentCourseId : Option String
  availability : List Availability
deriving DecidableEq, Repr

/-- `Subject` of `types/timetable.ts`. -/
structure Subject where
  id : String
  courseId : String
  semester : Nat
  type : SType
deriving DecidableEq, Repr

/-- `Course` of `types/timetable.ts` (fields read by the engine; a missing
`sections` array behaves like `[]` in every guard of the source). -/
structure Course where
  id : String
  sections : List String
  teacherId : String
  studentsCount : Nat
  roomType : SType
  requiredEquipment : List String
  sessionsPerWeek : Nat
deriving DecidableEq, Repr

/-- `'odd' | 'even'` semester parity selector. -/
inductive Parity where
  | odd
  | even
deriving DecidableEq, Repr

/-- `TimetableConstraints` of `types/timetable.ts` (fields read by the
engine). -/
structure TimetableConstraints where
  minBreakBetweenClasses : Int
  preferredStartTime : Nat
  preferredEndTime : Nat
  semesterParity : Option Parity
deriving DecidableEq, Repr

/-- `ClassSchedule` of `types/timetable.ts`: one scheduled assignment.
The optional `section` field is renamed `sectionLabel` (keyword clash). -/
structure ClassSchedule where
  id : String
  courseId : String
  subjectId : Option String
  sectionLabel : Option String
  semester : Option Nat
  teacherId : String
  roomId : String
  timeSlotId : String
  day : String
  startTime : Nat
  endTime : Nat
deriving DecidableEq, Repr

/-- Conflict kinds produced by the engine. -/
inductive ConflictType where
  | room_conflict
  | teacher_conflict
deriving DecidableEq, Repr

/-- Conflict severities. -/
inductive Severity where
  | high
  | medium
  | low
deriving DecidableEq, Repr

/-- `Conflict` of `types/timetable.ts`. -/
structure Conflict where
  type : ConflictType
  description : String
  severity : Severity
  classes : List String
deriving DecidableEq, Repr

/-- `OptimizationMetrics` of `types/timetable.ts`. -/
structure OptimizationMetrics where
  totalConflicts : ℚ
  roomUtilization : ℚ
  teacherWorkloadBalance : ℚ
  studentSatisfaction : ℚ
  constraintSatisfaction : ℚ
deriving DecidableEq, Repr

/-- `GenerationData` of `types/timetable.ts`. -/
structure GenerationData where
  generation : Nat
  bestFitness : ℚ
  averageFitness : ℚ
  worstFitness : ℚ
deriving DecidableEq, Repr

/-- `OptimizationResult` of `types/timetable.ts`. -/
structure OptimizationResult where
  schedule : List ClassSchedule
  fitness : ℚ
  conflicts : List Conflict
  metrics : OptimizationMetrics
  generationData : List GenerationData
deriving DecidableEq, Repr

/-- `Individual` of `types/timetable.ts`. -/
structure Individual where
  schedule : List ClassSchedule
  fitness : ℚ
deriving DecidableEq, Repr

/-- The input collections handed to the constructors of `HybridOptimizer`,
`GeneticAlgorithm` and `CPSATSolver` (they all store the same six values). -/
structure EngineInput where
  courses : List Course
  teachers : List Teacher
  rooms : List Room
  timeSlots : List TimeSlot
  constraints : TimetableConstraints
  subjects : List Subject
deriving Repr

/-! ## Association-list helpers mirroring JS `Map`/`Set` semantics -/

/-- `Set.add`: append if absent (JS sets preserve insertion order). -/
def sadd {α : Type} [DecidableEq α] (s : List α) (a : α) : List α :=
  if a ∈ s then s else s ++ [a]

/-- `Map.set`: replace in place if the key exists, else append. -/
def mset {κ ν : Type} [DecidableEq κ] (m : List (κ × ν)) (k : κ) (v : ν) :
    List (κ × ν) :=
  if m.any (fun p => p.1 = k) then
    m.map (fun p => if p.1 = k then (k, v) else p)
  else m ++ [(k, v)]

/-- `Map.get`. -/
def mget {κ ν : Type} [DecidableEq κ] (m : List (κ × ν)) (k : κ) : Option ν :=
  (m.find? (fun p => p.1 = k)).map (fun p => p.2)

/-- The `if (!map.has(k)) map.set(k, []); map.get(k).push(v)` grouping idiom:
append `v` to the bucket of `k`, creating the bucket at the end if absent. -/
def galoc {κ ν : Type} [DecidableEq κ] (m : List (κ × List ν)) (k : κ)
    (v : ν) : List (κ × List ν) :=
  if m.any (fun p => p.1 = k) then
    m.map (fun p => if p.1 = k then (p.1, p.2 ++ [v]) else p)
  else m ++ [(k, [v])]

/-- Group a list by a key, preserving both insertion orders. -/
def groupByKey {α κ : Type} [DecidableEq κ] (key : α → κ) (l : List α) :
    List (κ × List α) :=
  l.foldl (fun m a => galoc m (key a) a) []

/-- Stable insertion: place `a` after every earlier element `b` with
`le b a`. -/
def jsSortInsert {α : Type} (le : α → α → Bool) (a : α) : List α → List α
  | [] => [a]
  | b :: rest => if le b a then b :: jsSortInsert le a rest else a :: b :: rest

/-- JS `Array.sort` with a total comparator: a stable sort (mandated by the
ECMAScript spec), modelled as insertion sort, which is stable and produces
the same (unique) stably-sorted permutation. -/
def jsSort {α : Type} (le : α → α → Bool) (l : List α) : List α :=
  l.foldl (fun acc a => jsSortInsert le a acc) []

/-! ## Genetic-algorithm module (`src/unnamed/part_002`) -/

namespace GA

/-- `GeneticAlgorithm.timeSlotsOverlap`: half-open interval overlap via
`Date` comparison of the two time strings. -/
def timeSlotsOverlap (c1 c2 : ClassSchedule) : Prop :=
  c1.startTime < c2.endTime ∧ c2.startTime < c1.endTime

instance (c1 c2 : ClassSchedule) : Decidable (timeSlotsOverlap c1 c2) := by
  unfold timeSlotsOverlap; infer_instance

/-- The room double-booking test of `detectConflicts`. -/
def roomClash (c1 c2 : ClassSchedule) : Prop :=
  c1.roomId = c2.roomId ∧ c1.day = c2.day ∧ timeSlotsOverlap c1 c2

instance (c1 c2 : ClassSchedule) : Decidable (roomClash c1 c2) := by
  unfold roomClash; infer_instance

/-- The teacher double-booking test of `detectConflicts`. -/
def teacherClash (c1 c2 : ClassSchedule) : Prop :=
  c1.teacherId = c2.teacherId ∧ c1.day = c2.day ∧ timeSlotsOverlap c1 c2

instance (c1 c2 : ClassSchedule) : Decidable (teacherClash c1 c2) := by
  unfold teacherClash; infer_instance

/-- The conflict record pushed for a room clash of `class1`/`class2`. -/
def roomConflictOf (c1 c2 : ClassSchedule) : Conflict :=
  { type := ConflictType.room_conflict
    description := ("Room " ++ c1.roomId ++ " double-booked on " ++ c1.day)
    severity := Severity.high
    classes := [c1.id, c2.id] }

/-- The conflict record pushed for a teacher clash of `class1`/`class2`. -/
def teacherConflictOf (c1 c2 : ClassSchedule) : Conflict :=
  { type := ConflictType.teacher_conflict
    description := ("Teacher " ++ c1.teacherId ++ " double-booked on " ++ c1.day)
    severity := Severity.high
    classes := [c1.id, c2.id] }

/-- Conflicts the inner loop of `detectConflicts` pushes for one ordered pair
(room check first, then teacher check). -/
def pairConflicts (c1 c2 : ClassSchedule) : List Conflict :=
  (if roomClash c1 c2 then [roomConflictOf c1 c2] else []) ++
    (if teacherClash c1 c2 then [teacherConflictOf c1 c2] else [])

/-- Conflicts of `c` against each element of `rest`, in order. -/
def conflictsAgainst (c : ClassSchedule) : List ClassSchedule → List Conflict
  | [] => []
  | d :: rest => pairConflicts c d ++ conflictsAgainst c rest

/-- `GeneticAlgorithm.detectConflicts`: all ordered pairs `i < j`. -/
def detectConflicts : List ClassSchedule → List Conflict
  | [] => []
  | c :: rest => conflictsAgainst c rest ++ detectConflicts rest

/-- Penalty of one conflict in `calculateFitness` (the `switch`). -/
def severityPenalty : Severity → ℚ
  | Severity.high => 100
  | Severity.medium => 30
  | Severity.low => 10

/-- `GeneticAlgorithm.calculateWorkloadBalance`: `1 − variance/avg²` of the
per-teacher class counts, floored at `0`; degenerate `avg² = 0` replaced by
`1` (`avg * avg || 1`). -/
def calculateWorkloadBalance (schedule : List ClassSchedule) : ℚ :=
  let workloads :=
    ((schedule.map (fun c => c.teacherId)).eraseDups).map
      (fun t => ((schedule.filter (fun c => c.teacherId = t)).length : ℚ))
  if workloads.length = 0 then 0
  else
    let avg := workloads.sum / (workloads.length : ℚ)
    let variance :=
      (workloads.map (fun w => (w - avg) ^ 2)).sum / (workloads.length : ℚ)
    max 0 (1 - variance / (if avg * avg = 0 then 1 else avg * avg))

/-- `GeneticAlgorithm.calculateRoomUtilization`: mean over all rooms of
`usage / (timeSlots.length * 5)`. -/
def calculateRoomUtilization (inp : EngineInput) (schedule : List ClassSchedule) : ℚ :=
  let totalSlots : ℚ := (inp.timeSlots.length : ℚ) * 5
  let rates := inp.rooms.map
    (fun r => ((schedule.filter (fun c => c.roomId = r.id)).length : ℚ) / totalSlots)
  rates.sum / (inp.rooms.length : ℚ)

/-- `GeneticAlgorithm.calculateTimeDistribution`: `1 − variance/mean` of the
per-(day, start) usage counts, floored at `0`; degenerate `mean = 0` replaced
by `1` (`mean || 1`); empty schedule gives `0`. -/
def calculateTimeDistribution (schedule : List ClassSchedule) : ℚ :=
  let usage :=
    ((schedule.map (fun c => (c.day, c.startTime))).eraseDups).map
      (fun k =>
        ((schedule.filter (fun c => c.day = k.1 ∧ c.startTime = k.2)).length : ℚ))
  if usage.length = 0 then 0
  else
    let mean := usage.sum / (usage.length : ℚ)
    let variance := (usage.map (fun u => (u - mean) ^ 2)).sum / (usage.length : ℚ)
    max 0 (1 - variance / (if mean = 0 then 1 else mean))

/-- Teacher-availability check of `calculateConstraintSatisfaction`: the
teacher (if found) has an availability entry for the class day containing a
slot id whose `TimeSlot` starts at the class start time. -/
def teacherAvailCheck (inp : EngineInput) (c : ClassSchedule) : Bool :=
  match inp.teachers.find? (fun t => t.id = c.teacherId) with
  | none => false
  | some t =>
      t.availability.any (fun av =>
        av.day = c.day ∧ av.timeSlots.any (fun sid =>
          match inp.timeSlots.find? (fun ts => ts.id = sid) with
          | none => false
          | some ts => ts.startTime = c.startTime))

/-- Preferred-window check of `calculateConstraintSatisfaction`. -/
def preferredWindowCheck (inp : EngineInput) (c : ClassSchedule) : Bool :=
  inp.constraints.preferredStartTime ≤ c.startTime ∧
    c.startTime ≤ inp.constraints.preferredEndTime

/-- Room-type check of `calculateConstraintSatisfaction` (room and subject
must both resolve, and the room type must match the subject type). -/
def roomTypeCheck (inp : EngineInput) (c : ClassSchedule) : Bool :=
  match inp.rooms.find? (fun r => r.id = c.roomId),
      (c.subjectId.bind fun sid => inp.subjects.find? (fun s => s.id = sid)) with
  | some r, some s => r.type = s.type
  | _, _ => false

/-- `GeneticAlgorithm.calculateConstraintSatisfaction`: satisfied checks over
`3 × schedule.length` total checks. -/
def calculateConstraintSatisfaction (inp : EngineInput)
    (schedule : List ClassSchedule) : ℚ :=
  let satisfied := (schedule.map (fun c =>
    ((if teacherAvailCheck inp c then (1 : ℚ) else 0) +
      (if preferredWindowCheck inp c then (1 : ℚ) else 0) +
      (if roomTypeCheck inp c then (1 : ℚ) else 0)))).sum
  let total : ℚ := 3 * (schedule.length : ℚ)
  if total > 0 then satisfied / total else 0

/-- Gap minutes of one adjacent pair inside a sorted teacher-day bucket:
counted only when the gap exceeds `minBreakBetweenClasses + 60`. -/
def gapOfPair (inp : EngineInput) (cur nxt : ClassSchedule) : Int :=
  let gapMinutes : Int := (nxt.startTime : Int) - (cur.endTime : Int)
  if gapMinutes > inp.constraints.minBreakBetweenClasses + 60 then
    gapMinutes.fdiv 60
  else 0

/-- Sum of `gapOfPair` over consecutive elements. -/
def gapsOfDay (inp : EngineInput) : List ClassSchedule → Int
  | [] => 0
  | [_] => 0
  | c1 :: c2 :: rest => gapOfPair inp c1 c2 + gapsOfDay inp (c2 :: rest)

/-- `GeneticAlgorithm.calculateGapPenalty`: bucket the schedule by
(teacher, day), sort each bucket by start time (a stable sort, as JS `sort`
with `localeCompare` on zero-padded times), and sum counted gaps. -/
def calculateGapPenalty (inp : EngineInput) (schedule : List ClassSchedule) : Int :=
  let buckets := groupByKey (fun c => (c.teacherId, c.day)) schedule
  (buckets.map (fun b =>
    gapsOfDay inp (jsSort (fun a c => a.startTime ≤ c.startTime) b.2))).sum

/-- One element of `generateActualCourses`: an atomic demand unit. -/
structure ActualCourse where
  courseId : String
  subjectId : String
  sectionLabel : String
  semester : Nat
  roomType : SType
  studentsCount : Nat
  sessionsPerWeek : Nat
deriving DecidableEq, Repr

/-- The semester-parity filter applied to subjects of a course (identical in
`generateActualCourses`, `HybridOptimizer.optimize` and
`CPSATSolver.initializeVariables`). -/
def parityFilter (constraints : TimetableConstraints) (s : Subject) : Bool :=
  match constraints.semesterParity with
  | some Parity.odd => s.semester % 2 = 1
  | some Parity.even => s.semester % 2 = 0
  | none => true

/-- `GeneticAlgorithm.generateActualCourses`: one demand unit per
(course, section, parity-filtered subject); labs need 1 weekly session,
theory 2; the student count is the constant 60. -/
def generateActualCourses (inp : EngineInput) : List ActualCourse :=
  inp.courses.flatMap (fun course =>
    course.sections.flatMap (fun sec =>
      ((inp.subjects.filter (fun s =>
          s.courseId = course.id ∧ parityFilter inp.constraints s)).map
        (fun s =>
          { courseId := course.id
            subjectId := s.id
            sectionLabel := sec
            semester := s.semester
            roomType := s.type
            studentsCount := 60
            sessionsPerWeek := if s.type = SType.lab then 1 else 2 }))))

/-- `GeneticAlgorithm.calculateCoverage`: fraction of demand units with at
least one scheduled class (keys compared as (course, subject, section)). -/
def calculateCoverage (inp : EngineInput) (schedule : List ClassSchedule) : ℚ :=
  let scheduled := schedule.map (fun c => (c.courseId, c.subjectId, c.sectionLabel))
  let actual := generateActualCourses inp
  let covered := (actual.filter (fun a =>
    (a.courseId, some a.subjectId, some a.sectionLabel) ∈ scheduled)).length
  if actual.length = 0 then 0 else (covered : ℚ) / (actual.length : ℚ)

/-- `GeneticAlgorithm.calculateFitness`: sequential accumulation exactly as
in the source — start at 1000, subtract per-conflict penalties, add the
weighted reward terms, subtract the gap penalty, and clamp at 0. -/
def calculateFitness (inp : EngineInput) (schedule : List ClassSchedule) : ℚ :=
  let conflicts := detectConflicts schedule
  let f1 := conflicts.foldl (fun f c => f - severityPenalty c.severity) 1000
  let f2 := f1 + calculateWorkloadBalance schedule * 80
  let f3 := f2 + calculateRoomUtilization inp schedule * 60
  let f4 := f3 + calculateTimeDistribution schedule * 40
  let f5 := f4 + calculateConstraintSatisfaction inp schedule * 100
  let f6 := f5 - (calculateGapPenalty inp schedule : ℚ) * 20
  let f7 := f6 + calculateCoverage inp schedule * 150
  max f7 0

/-- Conflicts pushed by one iteration of `detectConflictsForClass` (teacher
check first, then room check; note the argument order of the source:
`existing` against the incoming `classItem`). -/
def classPairConflicts (existing c : ClassSchedule) : List Conflict :=
  (if teacherClash existing c then
      [{ type := ConflictType.teacher_conflict
         description := ("Teacher " ++ c.teacherId ++ " conflict")
         severity := Severity.high
         classes := [existing.id, c.id] }]
    else []) ++
  (if roomClash existing c then
      [{ type := ConflictType.room_conflict
         description := ("Room " ++ c.roomId ++ " conflict")
         severity := Severity.high
         classes := [existing.id, c.id] }]
    else [])

/-- `GeneticAlgorithm.detectConflictsForClass`. -/
def detectConflictsForClass (c : ClassSchedule) :
    List ClassSchedule → List Conflict
  | [] => []
  | e :: rest => classPairConflicts e c ++ detectConflictsForClass c rest

/-- The teacher-availability test used by `findAlternativeSlot` and
`mutateTimeSlot`. -/
def teacherAvailableOn (t : Teacher) (ts : TimeSlot) : Bool :=
  t.availability.any (fun av => av.day = ts.day ∧ ts.id ∈ av.timeSlots)

/-- The `testClass` built by `findAlternativeSlot`: the class relocated to
time slot `ts`. -/
def retime (c : ClassSchedule) (ts : TimeSlot) : ClassSchedule :=
  { c with day := ts.day, startTime := ts.startTime, endTime := ts.endTime,
           timeSlotId := ts.id }

/-- Slot-scanning loop of `findAlternativeSlot`. -/
def findAltGo (c : ClassSchedule) (kept : List ClassSchedule) (t : Teacher) :
    List TimeSlot → Option ClassSchedule
  | [] => none
  | ts :: rest =>
      if teacherAvailableOn t ts then
        if detectConflictsForClass (retime c ts) kept = [] then
          some (retime c ts)
        else findAltGo c kept t rest
      else findAltGo c kept t rest

/-- `GeneticAlgorithm.findAlternativeSlot`. -/
def findAlternativeSlot (inp : EngineInput) (c : ClassSchedule)
    (kept : List ClassSchedule) : Option ClassSchedule :=
  match inp.teachers.find? (fun t => t.id = c.teacherId) with
  | none => none
  | some t => findAltGo c kept t inp.timeSlots

/-- The string-concatenated `slotKey` of `repairSchedule`, modelled as a
collision-free tuple. -/
def slotKey (c : ClassSchedule) : String × String × String × Nat :=
  (c.teacherId, c.roomId, c.day, c.startTime)

/-- Mutable state of the `repairSchedule` walk. -/
structure RepairState where
  kept : List ClassSchedule
  used : List (String × String × String × Nat)

/-- One iteration of the `repairSchedule` loop. -/
def repairStep (inp : EngineInput) (st : RepairState) (c : ClassSchedule) :
    RepairState :=
  if slotKey c ∈ st.used then st
  else if detectConflictsForClass c st.kept = [] then
    { kept := st.kept ++ [c], used := sadd st.used (slotKey c) }
  else
    match findAlternativeSlot inp c st.kept with
    | some c' => { kept := st.kept ++ [c'], used := sadd st.used (slotKey c') }
    | none => st

/-- `GeneticAlgorithm.repairSchedule`. -/
def repairSchedule (inp : EngineInput) (schedule : List ClassSchedule) :
    List ClassSchedule :=
  (schedule.foldl (repairStep inp) ⟨[], []⟩).kept

/-- Absence of both clash kinds between an already-kept class and an
incoming one. -/
def noClash (a b : ClassSchedule) : Prop :=
  ¬ teacherClash a b ∧ ¬ roomClash a b

instance (a b : ClassSchedule) : Decidable (noClash a b) := by
  unfold noClash; infer_instance

/-- Invariant of the `repairSchedule` walk: the kept classes are pairwise
clash-free, their slot keys are distinct and all recorded in `usedSlots`,
and (under positive-duration inputs) they all have positive duration. -/
def RepairInv (st : RepairState) : Prop :=
  List.Pairwise noClash st.kept ∧
  (st.kept.map slotKey).Nodup ∧
  (∀ x ∈ st.kept, x.startTime < x.endTime) ∧
  (∀ x ∈ st.kept, slotKey x ∈ st.used)

/-! ### Reference-level model of `GeneticAlgorithm.mutate` (for C7)

`mutate` copies the schedule *array* (`[...individual.schedule]`) but the
`ClassSchedule` *objects* are shared by reference, and every mutation
operator assigns fields of those shared objects in place.  To express this,
the JS heap of `ClassSchedule` objects is modelled as a `Store` (objects
addressed by index), an `Individual`'s schedule array becomes a list of
object ids, and `Math.random()` draws come from an explicit trace. -/

/-- The heap of `ClassSchedule` objects. -/
abbrev Store := List ClassSchedule

/-- A trace of `Math.random()` results, consumed in call order. -/
abbrev Rng := List ℚ

/-- Consume one random draw. -/
def draw : Rng → ℚ × Rng
  | [] => (0, [])
  | r :: rest => (r, rest)

/-- An `Individual` whose schedule array holds object references. -/
structure IndividualRef where
  schedule : List Nat
  fitness : ℚ
deriving DecidableEq, Repr

/-- `GeneticAlgorithm.calculateAdaptiveMutationRate`:
`base * (2 − clamp(fitness/1000, 0, 1))`. -/
def calculateAdaptiveMutationRate (fitness baseMutationRate : ℚ) : ℚ :=
  baseMutationRate * (2 - max 0 (min 1 (fitness / 1000)))

/-- `Math.floor(r * n)` as an array index. -/
def randIndex (r : ℚ) (n : Nat) : Nat := (Int.floor (r * (n : ℚ))).toNat

/-- `mutateTimeSlot` acting on the store: assigns the slot fields of the
referenced object in place. -/
def mutateTimeSlotH (inp : EngineInput) (store : Store) (oid : Nat)
    (rng : Rng) : Store × Rng :=
  match store[oid]? with
  | none => (store, rng)
  | some c =>
      match inp.teachers.find? (fun t => t.id = c.teacherId) with
      | none => (store, rng)
      | some t =>
          match inp.timeSlots.filter (fun slot => teacherAvailableOn t slot) with
          | [] => (store, rng)
          | s0 :: srest =>
              let (r, rng') := draw rng
              let slot := (s0 :: srest).getD (randIndex r (s0 :: srest).length) s0
              (store.set oid
                { c with timeSlotId := slot.id, day := slot.day,
                         startTime := slot.startTime, endTime := slot.endTime },
               rng')

/-- `mutateRoom` acting on the store. -/
def mutateRoomH (inp : EngineInput) (store : Store) (oid : Nat)
    (rng : Rng) : Store × Rng :=
  match store[oid]? with
  | none => (store, rng)
  | some c =>
      match c.subjectId.bind (fun sid => inp.subjects.find? (fun s => s.id = sid)) with
      | none => (store, rng)
      | some subj =>
          match inp.rooms.filter (fun room =>
              room.type = (if subj.type = SType.lab then SType.lab else SType.theory) ∧
              60 ≤ room.capacity) with
          | [] => (store, rng)
          | r0 :: rrest =>
              let (r, rng') := draw rng
              let room := (r0 :: rrest).getD (randIndex r (r0 :: rrest).length) r0
              (store.set oid { c with roomId := room.id }, rng')

/-- `mutateTeacher` acting on the store (only when at least two qualified
teachers exist and another teacher is available). -/
def mutateTeacherH (inp : EngineInput) (store : Store) (oid : Nat)
    (rng : Rng) : Store × Rng :=
  match store[oid]? with
  | none => (store, rng)
  | some c =>
      let avail := inp.teachers.filter (fun t =>
        (c.subjectId.getD "") ∈ t.taughtSubjectIds ∨
          t.departmentCourseId = some c.courseId)
      if 1 < avail.length then
        match avail.filter (fun t => t.id ≠ c.teacherId) with
        | [] => (store, rng)
        | o0 :: orest =>
            let (r, rng') := draw rng
            let other := (o0 :: orest).getD (randIndex r (o0 :: orest).length) o0
            (store.set oid { c with teacherId := other.id }, rng')
      else (store, rng)

/-- `swapMutation` acting on the store: swaps time and room fields between
the two referenced objects in place. -/
def swapMutationH (store : Store) (ids : List Nat) (i : Nat) (rng : Rng) :
    Store × Rng :=
  if ids.length < 2 then (store, rng)
  else
    let (r, rng') := draw rng
    let otherIndex := randIndex r ids.length
    if otherIndex ≠ i then
      match ids[i]?, ids[otherIndex]? with
      | some oa, some ob =>
          match store[oa]?, store[ob]? with
          | some ca, some cb =>
              ((store.set oa
                  { ca with timeSlotId := cb.timeSlotId, day := cb.day,
                            startTime := cb.startTime, endTime := cb.endTime,
                            roomId := cb.roomId }).set ob
                  { cb with timeSlotId := ca.timeSlotId, day := ca.day,
                            startTime := ca.startTime, endTime := ca.endTime,
                            roomId := ca.roomId },
               rng')
          | _, _ => (store, rng')
      | _, _ => (store, rng')
    else (store, rng')

/-- One index of the mutation loop of `mutate`: draw the trigger, then the
operator selector (time slot < 0.4 ≤ room < 0.7 ≤ teacher < 0.9 ≤ swap). -/
def mutateStepH (inp : EngineInput) (rate : ℚ) (ids : List Nat) (i : Nat)
    (store : Store) (rng : Rng) : Store × Rng :=
  let (r1, rng1) := draw rng
  if r1 < rate then
    let (r2, rng2) := draw rng1
    if r2 < 4/10 then mutateTimeSlotH inp store (ids.getD i 0) rng2
    else if r2 < 7/10 then mutateRoomH inp store (ids.getD i 0) rng2
    else if r2 < 9/10 then mutateTeacherH inp store (ids.getD i 0) rng2
    else swapMutationH store ids i rng2
  else (store, rng1)

/-- The mutation loop over all indices. -/
def mutatePhaseAux (inp : EngineInput) (rate : ℚ) (ids : List Nat) :
    List Nat → Store → Rng → Store × Rng
  | [], store, rng => (store, rng)
  | i :: rest, store, rng =>
      match mutateStepH inp rate ids i store rng with
      | (store', rng') => mutatePhaseAux inp rate ids rest store' rng'

/-- The in-place mutation phase of `GeneticAlgorithm.mutate` (source lines
608–632): the copied id array aliases the parent's objects, and the loop
assigns their fields in place.  The subsequent `repairSchedule` and fitness
computation build the *child* from the dereferenced values but do not undo
these in-place updates — so any other individual holding references into the
same store (e.g. an elite pushed verbatim into the next population by
`runGeneticEvolution`) observes them. -/
def mutatePhaseH (inp : EngineInput) (baseMutationRate : ℚ) (store : Store)
    (ind : IndividualRef) (rng : Rng) : Store × Rng :=
  mutatePhaseAux inp
    (calculateAdaptiveMutationRate ind.fitness baseMutationRate)
    ind.schedule (List.range ind.schedule.length) store rng

/-- The schedule an individual observes: its references resolved in the
store. -/
def derefSchedule (store : Store) (ind : IndividualRef) :
    List ClassSchedule :=
  ind.schedule.filterMap (fun oid => store[oid]?)

end GA

namespace Hybrid

/-! ### Bookkeeping of `HybridOptimizer.runGeneticEvolution` (for C8)

The per-generation adaptive-mutation bookkeeping of the generation loop
(source lines 407–468), with the stochastic construction of each new
population abstracted as an oracle giving that generation's best
new-population fitness.  Everything the stagnation logic reads —
`stagnationCount`, `currentMutationRate`, `lastBestFitness`,
`bestIndividual.fitness` — is tracked exactly as in the source. -/

/-- The adaptive-parameter state of the generation loop. -/
structure EvoState where
  stagnation : Nat
  currentRate : ℚ
  lastBest : ℚ
  bestFit : ℚ
deriving DecidableEq, Repr

/-- One generation `g` of the loop: the stagnation check and mutation-rate
update at the top, then the best-individual update from the new population's
best fitness `newPopBest`, then `lastBestFitness := bestIndividual.fitness`. -/
def evoStep (baseRate : ℚ) (g : Nat) (newPopBest : ℚ) (st : EvoState) :
    EvoState :=
  let stagRate :=
    if 0 < g ∧ st.bestFit ≤ st.lastBest then
      (st.stagnation + 1,
        if 10 < st.stagnation + 1 then min (baseRate * 2) (3/10)
        else st.currentRate)
    else (0, baseRate)
  let best := if st.bestFit < newPopBest then newPopBest else st.bestFit
  { stagnation := stagRate.1, currentRate := stagRate.2,
    lastBest := best, bestFit := best }

/-- Run the loop from generation `g` over the oracle's fitness trace. -/
def runEvoAux (baseRate : ℚ) : Nat → List ℚ → EvoState → EvoState
  | _, [], st => st
  | g, b :: rest, st => runEvoAux baseRate (g + 1) rest (evoStep baseRate g b st)

/-- The full bookkeeping run: initial state as in the source
(`stagnationCount = 0`, `currentMutationRate = params.mutationRate`,
`lastBestFitness = bestIndividual.fitness = initBest`, the best fitness of
the initial population). -/
def runEvoBook (baseRate initBest : ℚ) (oracle : List ℚ) : EvoState :=
  runEvoAux baseRate 0 oracle ⟨0, baseRate, initBest, initBest⟩

end Hybrid

/-! ## Concrete scenario data for the mutation-aliasing claim (C7) -/

/-- Teacher of the C7 scenario: available only on Tuesday at slot `T2`. -/
def c7teacher : Teacher := ⟨"t", [], none, [⟨"Tuesday", ["T2"]⟩]⟩

/-- Engine input of the C7 scenario. -/
def c7inp : EngineInput :=
  ⟨[], [c7teacher], [], [⟨"T2", "Tuesday", 600, 660⟩], ⟨0, 0, 1440, none⟩, []⟩

/-- The single `ClassSchedule` object in the store, shared between an elite
and the parent selected for mutation. -/
def c7class : ClassSchedule :=
  ⟨"a", "c", none, none, none, "t", "r", "T1", "Monday", 540, 600⟩

/-- The elite individual: a reference to object 0, fitness 1000. -/
def c7elite : GA.IndividualRef := ⟨[0], 1000⟩

/-- Random trace: trigger mutation at index 0 (draw 0 < adaptive rate),
select the time-slot operator (draw 0 < 0.4), pick slot index 0. -/
def c7rng : GA.Rng := [0, 0, 0]

/-! ## Hybrid orchestrator entry point
(`HybridOptimizer.optimize`, `src/project/project/src/utils/hybridOptimizer.ts`
lines 46–226: input validation followed by the constructive mock heuristic;
the simulated-progress callback loop performs no state change and is
omitted). -/

namespace Hybrid

/-- The weekday rotation order of the heuristic. -/
def dayOrder : List String :=
  ["Monday", "Tuesday", "Wednesday", "Thursday", "Friday"]

/-- `dayToSlots`: group the time slots by day (object-key insertion order)
and sort each bucket by start time (JS `sort` is stable;
`localeCompare` on zero-padded times is numeric order). -/
def dayToSlots (slots : List TimeSlot) : List (String × List TimeSlot) :=
  (groupByKey (fun s => s.day) slots).map
    (fun b => (b.1, jsSort (fun a c => a.startTime ≤ c.startTime) b.2))

/-- `courseIdToSubjects` built from the parity-filtered subjects. -/
def courseIdToSubjects (inp : EngineInput) : List (String × List Subject) :=
  groupByKey (fun s : Subject => s.courseId)
    (inp.subjects.filter (GA.parityFilter inp.constraints))

/-- The per-subject demand record of the heuristic
(`{ subject, remaining, usedDays }`). -/
structure HDemand where
  subject : Subject
  remaining : Nat
  usedDays : List String
deriving Repr

/-- The occupancy state shared across all courses and sections. -/
structure HybState where
  sched : List ClassSchedule
  occT : List (String × String)
  occR : List (String × String)
  occS : List (String × String × String)
deriving Repr

/-- The per-section state: the demand list and the
`sectionTeacherAssignments` map (subject id → teacher id). -/
structure SectState where
  demand : List HDemand
  assigned : List (String × String)
deriving Repr

/-- `remainingTotal`: the summed remaining demand. -/
def sumRem (ss : SectState) : Nat :=
  (ss.demand.map (fun d => d.remaining)).sum

/-- The `demand.findIndex(d => d.remaining > 0 && !d.usedDays.has(day))`
search combined with the in-place update performed on success (`remaining`
decremented, `day` added to `usedDays`); returns the matched record
(pre-update, whose `subject` the caller reads) and the updated list. -/
def placeDemand (day : String) : List HDemand →
    Option (HDemand × List HDemand)
  | [] => none
  | d :: rest =>
      if 0 < d.remaining ∧ day ∉ d.usedDays then
        some (d, { d with remaining := d.remaining - 1,
                          usedDays := sadd d.usedDays day } :: rest)
      else (placeDemand day rest).map (fun p => (p.1, d :: p.2))

/-- Outcome of the loop body of `tryPlaceOneOnDay` for one slot. -/
inductive PlaceOutcome where
  | hardFail
  | slotFail
  | placed (hs : HybState) (ss : SectState)

/-- Teacher choice of `tryPlaceOneOnDay`: prefer a teacher not already
assigned to another subject of this section, else fall back to the first
available teacher `t0` (`availableTeachers[0]`). -/
def pickTeacher (t0 : Teacher) (avail : List Teacher)
    (assigned : List (String × String)) : Teacher :=
  match avail.filter (fun t => t.id ∉ assigned.map (fun p => p.2)) with
  | [] => t0
  | u :: _ => u

/-- Loop body of `tryPlaceOneOnDay` for one slot: pick a demand item usable
today (`hardFail` models the `return false` when none exists), a qualified
unoccupied teacher, an unoccupied matching room, a free section key, and
commit the assignment plus all occupancy updates. -/
def attemptSlot (inp : EngineInput) (course : Course) (sec day : String)
    (hs : HybState) (ss : SectState) (slot : TimeSlot) : PlaceOutcome :=
  match placeDemand day ss.demand with
  | none => PlaceOutcome.hardFail
  | some (d, demand') =>
      match inp.teachers.filter (fun t =>
          (d.subject.id ∈ t.taughtSubjectIds ∨
            t.departmentCourseId = some course.id) ∧
          (t.id, slot.id) ∉ hs.occT) with
      | [] => PlaceOutcome.slotFail
      | t0 :: tl =>
          let teacher := pickTeacher t0 (t0 :: tl) ss.assigned
          match inp.rooms.find? (fun r =>
              r.type = d.subject.type ∧ (r.id, slot.id) ∉ hs.occR) with
          | none => PlaceOutcome.slotFail
          | some room =>
              if (course.id, sec, slot.id) ∈ hs.occS then
                PlaceOutcome.slotFail
              else
                PlaceOutcome.placed
                  { sched := hs.sched ++
                      [{ id := ("sched_" ++ course.id ++ "_" ++ sec ++
                          "_" ++ d.subject.id ++ "_" ++ slot.id)
                         courseId := course.id
                         subjectId := some d.subject.id
                         sectionLabel := some sec
                         semester := some d.subject.semester
                         teacherId := teacher.id
                         roomId := room.id
                         timeSlotId := slot.id
                         day := slot.day
                         startTime := slot.startTime
                         endTime := slot.endTime }]
                    occT := sadd hs.occT (teacher.id, slot.id)
                    occR := sadd hs.occR (room.id, slot.id)
                    occS := sadd hs.occS (course.id, sec, slot.id) }
                  { demand := demand'
                    assigned := mset ss.assigned d.subject.id teacher.id }

/-- `tryPlaceOneOnDay`: scan the day's slots in order; `none` models
`return false` (the state is unchanged then). -/
def tryPlaceSlots (inp : EngineInput) (course : Course) (sec day : String)
    (hs : HybState) (ss : SectState) :
    List TimeSlot → Option (HybState × SectState)
  | [] => none
  | slot :: rest =>
      match attemptSlot inp course sec day hs ss slot with
      | PlaceOutcome.hardFail => none
      | PlaceOutcome.slotFail => tryPlaceSlots inp course sec day hs ss rest
      | PlaceOutcome.placed hs' ss' => some (hs', ss')

/-- The `for (const day of rotatedDays)` body of pass 1: breaks once no
demand remains, otherwise attempts one placement per day and records whether
anything was placed. -/
def dayFold (inp : EngineInput) (course : Course) (sec : String)
    (dts : List (String × List TimeSlot)) :
    List String → HybState → SectState → Bool → HybState × SectState × Bool
  | [], hs, ss, placed => (hs, ss, placed)
  | day :: rest, hs, ss, placed =>
      if sumRem ss = 0 then (hs, ss, placed)
      else
        match tryPlaceSlots inp course sec day hs ss ((mget dts day).getD []) with
        | some (hs', ss') => dayFold inp course sec dts rest hs' ss' true
        | none => dayFold inp course sec dts rest hs ss placed

/-- The pass-1 `while (remainingTotal > 0)` loop, fueled: each iteration
either places at least one class (strictly decreasing `sumRem`) or breaks,
so any fuel above the remaining demand yields the loop's fixpoint
(`pass1Fuel_congr` below makes the fuel-irrelevance explicit). -/
def pass1Fuel (inp : EngineInput) (course : Course) (sec : String)
    (dts : List (String × List TimeSlot)) (rotDays : List String) :
    Nat → HybState → SectState → HybState × SectState
  | 0, hs, ss => (hs, ss)
  | Nat.succ n, hs, ss =>
      if 0 < sumRem ss then
        match dayFold inp course sec dts rotDays hs ss false with
        | (hs', ss', placed) =>
            if placed then pass1Fuel inp course sec dts rotDays n hs' ss'
            else (hs', ss')
      else (hs, ss)

/-- Pass 1 with sufficient fuel. -/
def pass1 (inp : EngineInput) (course : Course) (sec : String)
    (dts : List (String × List TimeSlot)) (rotDays : List String)
    (hs : HybState) (ss : SectState) : HybState × SectState :=
  pass1Fuel inp course sec dts rotDays (sumRem ss + 1) hs ss

/-- The pass-2 inner `while (tryMore > 0 && demand.some(...))` loop
(`tryMore` starts at 3). -/
def pass2Day (inp : EngineInput) (course : Course) (sec : String)
    (dts : List (String × List TimeSlot)) (day : String) :
    Nat → HybState → SectState → HybState × SectState
  | 0, hs, ss => (hs, ss)
  | Nat.succ n, hs, ss =>
      if ss.demand.any (fun d => 0 < d.remaining) then
        match tryPlaceSlots inp course sec day hs ss ((mget dts day).getD []) with
        | some (hs', ss') => pass2Day inp course sec dts day n hs' ss'
        | none => (hs, ss)
      else (hs, ss)

/-- Pass 2: per rotated day, attempt up to 3 extra placements. -/
def pass2 (inp : EngineInput) (course : Course) (sec : String)
    (dts : List (String × List TimeSlot)) (rotDays : List String)
    (hs : HybState) (ss : SectState) : HybState × SectState :=
  rotDays.foldl
    (fun p day => pass2Day inp course sec dts day 3 p.1 p.2) (hs, ss)

/-- Day rotation of a section: `(section.charCodeAt(0) + course.id.length) %
dayOrder.length`.  For an empty section label, `charCodeAt(0)` is `NaN` and
`slice(NaN)`/`slice(0, NaN)` yield the unrotated day list, i.e. rotation 0. -/
def sectionRot (course : Course) (sec : String) : Nat :=
  match sec.toList with
  | [] => 0
  | ch :: _ => (ch.toNat + course.id.length) % 5

/-- `rotatedDays`: `[...dayOrder.slice(rot), ...dayOrder.slice(0, rot)]`. -/
def rotDaysOf (course : Course) (sec : String) : List String :=
  dayOrder.drop (sectionRot course sec) ++ dayOrder.take (sectionRot course sec)

/-- Fresh demand of one section: labs 1 weekly session, theory 2. -/
def initDemand (subs : List Subject) : List HDemand :=
  subs.map (fun s =>
    ({ subject := s, remaining := if s.type = SType.lab then 1 else 2,
       usedDays := [] } : HDemand))

/-- Process one section of a course: build the demand, run pass 1, and —
if demand remains — pass 2. -/
def processSection (inp : EngineInput) (dts : List (String × List TimeSlot))
    (course : Course) (subjectsForCourse : List Subject) (hs : HybState)
    (sec : String) : HybState :=
  match pass1 inp course sec dts (rotDaysOf course sec) hs
      ⟨initDemand subjectsForCourse, []⟩ with
  | (hs1, ss1) =>
      if 0 < sumRem ss1 then
        (pass2 inp course sec dts (rotDaysOf course sec) hs1 ss1).1
      else hs1

/-- Process one course: skip courses with no (parity-filtered) subjects;
default the section list to `["A"]` when empty. -/
def courseStep (inp : EngineInput) (dts : List (String × List TimeSlot))
    (cmap : List (String × List Subject)) (hs : HybState) (course : Course) :
    HybState :=
  let subs := (mget cmap course.id).getD []
  if subs = [] then hs
  else
    let sections := if course.sections = [] then ["A"] else course.sections
    sections.foldl (processSection inp dts course subs) hs

/-- The full constructive heuristic of `optimize` (guarded by
`subjects.length > 0 && timeSlots.length > 0`). -/
def buildState (inp : EngineInput) : HybState :=
  if inp.subjects ≠ [] ∧ inp.timeSlots ≠ [] then
    inp.courses.foldl
      (courseStep inp (dayToSlots inp.timeSlots) (courseIdToSubjects inp))
      ⟨[], [], [], []⟩
  else ⟨[], [], [], []⟩

/-- The `testSchedule` array returned by `optimize`. -/
def buildSchedule (inp : EngineInput) : List ClassSchedule :=
  (buildState inp).sched

/-- `HybridOptimizer.optimize`: input validation, then the constructive
heuristic wrapped in the hard-coded result record (fitness 750, empty
conflicts, constant metrics, fixed three-entry generation history). -/
def optimize (inp : EngineInput) : Except String OptimizationResult :=
  if inp.courses = [] ∨ inp.teachers = [] ∨ inp.rooms = [] then
    Except.error ("Missing required data: courses, teachers, or rooms")
  else
    Except.ok
      { schedule := buildSchedule inp
        fitness := 750
        conflicts := []
        metrics :=
          { totalConflicts := 0
            roomUtilization := 80
            teacherWorkloadBalance := 90
            studentSatisfaction := 85
            constraintSatisfaction := 95 }
        generationData :=
          [⟨0, 500, 400, 300⟩, ⟨50, 650, 550, 450⟩, ⟨100, 750, 650, 550⟩] }

/-- Invariant of the heuristic state: distinct (teacher, slot) and
(room, slot) keys over the schedule, both recorded in the occupancy sets,
and every assignment's (slot id, day, start) copied from an input slot. -/
def HybInv (inp : EngineInput) (hs : HybState) : Prop :=
  (hs.sched.map (fun e => (e.teacherId, e.timeSlotId))).Nodup ∧
  (hs.sched.map (fun e => (e.roomId, e.timeSlotId))).Nodup ∧
  (∀ e ∈ hs.sched, (e.teacherId, e.timeSlotId) ∈ hs.occT) ∧
  (∀ e ∈ hs.sched, (e.roomId, e.timeSlotId) ∈ hs.occR) ∧
  (∀ e ∈ hs.sched, ∃ ts ∈ inp.timeSlots,
    e.timeSlotId = ts.id ∧ e.day = ts.day ∧ e.startTime = ts.startTime)

end Hybrid

/-! ## Concrete scenario data for the hybrid-optimizer claims -/

/-- Empty input collections (C1 error case). -/
def c1empty : EngineInput := ⟨[], [], [], [], ⟨0, 0, 1440, none⟩, []⟩

/-- Minimal fully-populated input (C1 success case). -/
def c1full : EngineInput :=
  ⟨[⟨"C", ["A"], "", 0, SType.theory, [], 1⟩],
   [⟨"t", [], some "C", []⟩],
   [⟨"r", SType.theory, 0, []⟩],
   [⟨"T1", "Monday", 540, 600⟩],
   ⟨0, 0, 1440, none⟩,
   [⟨"s", "C", 1, SType.theory⟩]⟩

/-- C2 counterexample input: one course with two sections, one theory
subject, one teacher, one room, and two *distinct* Monday slots at the same
start time. -/
def c2xinp : EngineInput :=
  ⟨[⟨"C", ["A", "B"], "", 0, SType.theory, [], 1⟩],
   [⟨"t", [], some "C", []⟩],
   [⟨"r", SType.theory, 0, []⟩],
   [⟨"T1", "Monday", 540, 600⟩, ⟨"T2", "Monday", 540, 600⟩],
   ⟨0, 0, 1440, none⟩,
   [⟨"s", "C", 1, SType.theory⟩]⟩

/-- The result record `optimize` returns on `c2xinp`. -/
def c2xres : OptimizationResult :=
  { schedule := Hybrid.buildSchedule c2xinp
    fitness := 750
    conflicts := []
    metrics := ⟨0, 80, 90, 85, 95⟩
    generationData :=
      [⟨0, 500, 400, 300⟩, ⟨50, 650, 550, 450⟩, ⟨100, 750, 650, 550⟩] }

/-- First assignment `optimize` constructs on `c2xinp` (section A, slot T1). -/
def c2xa : ClassSchedule :=
  ⟨"sched_C_A_s_T1", "C", some "s", some "A", some 1, "t", "r", "T1",
   "Monday", 540, 600⟩

/-- Second assignment `optimize` constructs on `c2xinp` (section B, slot T2):
same teacher, room, day and start time as `c2xa`. -/
def c2xb : ClassSchedule :=
  ⟨"sched_C_B_s_T2", "C", some "s", some "B", some 1, "t", "r", "T2",
   "Monday", 540, 600⟩

/-- C2 witness input: as `c2xinp` but with distinct slot start times. -/
def c2winp : EngineInput :=
  ⟨[⟨"C", ["A", "B"], "", 0, SType.theory, [], 1⟩],
   [⟨"t", [], some "C", []⟩],
   [⟨"r", SType.theory, 0, []⟩],
   [⟨"T1", "Monday", 540, 600⟩, ⟨"T2", "Monday", 600, 660⟩],
   ⟨0, 0, 1440, none⟩,
   [⟨"s", "C", 1, SType.theory⟩]⟩

/-- The result record `optimize` returns on `c2winp`. -/
def c2wres : OptimizationResult :=
  { schedule := Hybrid.buildSchedule c2winp
    fitness := 750
    conflicts := []
    metrics := ⟨0, 80, 90, 85, 95⟩
    generationData :=
      [⟨0, 500, 400, 300⟩, ⟨50, 650, 550, 450⟩, ⟨100, 750, 650, 550⟩] }

/-- C3 witness input. -/
def c3winp : EngineInput :=
  ⟨[⟨"D", ["A"], "", 0, SType.theory, [], 1⟩],
   [⟨"u", [], some "D", []⟩],
   [⟨"q", SType.theory, 0, []⟩],
   [⟨"T1", "Tuesday", 540, 600⟩],
   ⟨0, 0, 1440, none⟩,
   [⟨"z", "D", 1, SType.theory⟩]⟩

/-! ## Concrete scenario data for the repair claims -/

/-- Teacher of the C5 scenario: available only on Monday at slot `T1`. -/
def c5teacher : Teacher := ⟨"t", [], none, [⟨"Monday", ["T1"]⟩]⟩

/-- Zero-length Monday time slot (09:00–09:00). -/
def c5slot : TimeSlot := ⟨"T1", "Monday", 540, 540⟩

/-- Engine input of the C5 counterexample. -/
def c5inp : EngineInput := ⟨[], [c5teacher], [], [c5slot], ⟨0, 0, 1440, none⟩, []⟩

/-- Kept class: teacher `t`, room `r`, Monday 09:00–10:00. -/
def c5a : ClassSchedule :=
  ⟨"a", "c", none, none, none, "t", "r", "T1", "Monday", 540, 600⟩

/-- Clashing class: same teacher and room, Monday 08:00–10:00. -/
def c5b : ClassSchedule :=
  ⟨"b", "c", none, none, none, "t", "r", "TX", "Monday", 480, 600⟩

/-- Positive-duration variant of the C5 scenario, used as witness input. -/
def c5winp : EngineInput :=
  ⟨[], [c5teacher], [], [⟨"T1", "Monday", 540, 600⟩], ⟨0, 0, 1440, none⟩, []⟩

/-! ## CP-SAT solver (`CPSATSolver`, `src/project/project/src/data/demoData.ts`)

`Math.log` (used only inside the greedy fallback's course-sort score) is a
transcendental function on floats; it is modelled as an arbitrary parameter
`jsLog`, since only the resulting sort order can depend on it.  The
`Date.now()`/`Math.random()` fresh id strings are modelled by a running
counter. -/

/-- Map-of-sets `if (!m.has(k)) m.set(k, new Set()); m.get(k).add(v)`. -/
def gadd {κ ν : Type} [DecidableEq κ] [DecidableEq ν]
    (m : List (κ × List ν)) (k : κ) (v : ν) : List (κ × List ν) :=
  if m.any (fun p => p.1 = k) then
    m.map (fun p => if p.1 = k then (p.1, sadd p.2 v) else p)
  else m ++ [(k, [v])]

/-- All ordered pairs `(l[i], l[j])` with `i < j`, in loop order. -/
def ordPairs {α : Type} : List α → List (α × α)
  | [] => []
  | a :: rest => rest.map (fun b => (a, b)) ++ ordPairs rest

namespace CPSAT

/-- CSP variable (`Variable` of `demoData.ts`): a candidate
(course, subject, section, teacher, room, time-slot) tuple with its boolean
domain. -/
structure CPVariable where
  id : String
  courseId : String
  subjectId : String
  sectionLabel : String
  teacherId : String
  roomId : String
  timeSlotId : String
  domain : Bool
deriving DecidableEq, Repr

/-- Constraint kinds (`Constraint.type`). -/
inductive CType where
  | resource_conflict
  | teacher_availability
  | room_capacity
  | time_preference
deriving DecidableEq, Repr

/-- `Constraint` of `demoData.ts` (the `variables` field is renamed
`varIds`: `variables` is a reserved token in Lean 4). -/
structure CPConstraint where
  id : String
  ctype : CType
  varIds : List String
  satisfied : Bool
deriving DecidableEq, Repr

/-- The solver's mutable state: the variable map (insertion order) and the
constraint list. -/
structure CPState where
  vars : List CPVariable
  cons : List CPConstraint
deriving Repr

/-- `isVariableValid`: teacher availability, room-type compatibility and the
preferred time window. -/
def isVariableValid (inp : EngineInput) (subject : Subject) (teacher : Teacher)
    (room : Room) (ts : TimeSlot) : Bool :=
  (teacher.availability.any (fun av => av.day = ts.day ∧ ts.id ∈ av.timeSlots)) ∧
  (room.type = (if subject.type = SType.lab then SType.lab else SType.theory)) ∧
  (inp.constraints.preferredStartTime ≤ ts.startTime ∧
    ts.startTime ≤ inp.constraints.preferredEndTime)

/-- The underscore-joined variable id. -/
def varId (course : Course) (subject : Subject) (sec : String) (t : Teacher)
    (room : Room) (ts : TimeSlot) : String :=
  course.id ++ "_" ++ subject.id ++ "_" ++ sec ++ "_" ++ t.id ++ "_" ++
    room.id ++ "_" ++ ts.id

/-- `initializeVariables`: one variable per
course × section × parity-filtered subject × qualified teacher ×
compatible room (capacity ≥ 60) × time slot, in loop order (a course with
no sections contributes nothing, as does `continue` in the source; the JS
`Map.set` keying is modelled as an append since the construction produces
each id once). -/
def initVars (inp : EngineInput) : List CPVariable :=
  inp.courses.flatMap (fun course =>
    course.sections.flatMap (fun sec =>
      (inp.subjects.filter (fun s =>
          s.courseId = course.id ∧ GA.parityFilter inp.constraints s)).flatMap
        (fun subject =>
          (inp.teachers.filter (fun t =>
              subject.id ∈ t.taughtSubjectIds ∨
                t.departmentCourseId = some course.id)).flatMap (fun teacher =>
            (inp.rooms.filter (fun room =>
                room.type =
                  (if subject.type = SType.lab then SType.lab else SType.theory) ∧
                60 ≤ room.capacity)).flatMap (fun room =>
              inp.timeSlots.map (fun ts =>
                { id := varId course subject sec teacher room ts
                  courseId := course.id
                  subjectId := subject.id
                  sectionLabel := sec
                  teacherId := teacher.id
                  roomId := room.id
                  timeSlotId := ts.id
                  domain := isVariableValid inp subject teacher room ts }))))))

/-- `addResourceConflictConstraints`: per time slot, one constraint per
teacher group and per room group with more than one variable. -/
def resourceConflictCons (vars : List CPVariable) : List CPConstraint :=
  (groupByKey (fun v : CPVariable => v.timeSlotId) vars).flatMap (fun g =>
    ((groupByKey (fun v : CPVariable => v.teacherId) g.2).filterMap (fun tg =>
      if 1 < tg.2.length then
        some { id := ("teacher_conflict_" ++ tg.1 ++ "_" ++ g.1)
               ctype := CType.resource_conflict
               varIds := tg.2.map (fun v => v.id)
               satisfied := false }
      else none)) ++
    ((groupByKey (fun v : CPVariable => v.roomId) g.2).filterMap (fun rg =>
      if 1 < rg.2.length then
        some { id := ("room_conflict_" ++ rg.1 ++ "_" ++ g.1)
               ctype := CType.resource_conflict
               varIds := rg.2.map (fun v => v.id)
               satisfied := false }
      else none)))

/-- `addSubjectRequirementConstraints`: one constraint (of declared type
`teacher_availability`, as in the source) per (subject, section) group. -/
def subjectRequirementCons (vars : List CPVariable) : List CPConstraint :=
  (groupByKey (fun v : CPVariable => (v.subjectId, v.sectionLabel)) vars).map
    (fun g =>
      { id := ("subject_requirement_" ++ g.1.1 ++ "_" ++ g.1.2)
        ctype := CType.teacher_availability
        varIds := g.2.map (fun v => v.id)
        satisfied := false })

/-- `addTeacherDiversityConstraints`: per (course, section) group, for every
ordered subject pair sharing at least one teacher, a `resource_conflict`
constraint over the variables of those subjects taught by a common
teacher. -/
def teacherDiversityCons (vars : List CPVariable) : List CPConstraint :=
  (groupByKey (fun v : CPVariable => (v.courseId, v.sectionLabel)) vars).flatMap
    (fun g =>
      let stp := g.2.foldl (fun m v => gadd m v.subjectId v.teacherId) []
      (ordPairs (stp.map (fun p => p.1))).flatMap (fun pr =>
        let t1 := (mget stp pr.1).getD []
        let t2 := (mget stp pr.2).getD []
        let common := t1.filter (fun t => t ∈ t2)
        if common ≠ [] then
          match g.2.filter (fun v =>
              (v.subjectId = pr.1 ∨ v.subjectId = pr.2) ∧
                v.teacherId ∈ common) with
          | [] => []
          | conflicting =>
              [{ id := ("teacher_diversity_" ++ g.1.1 ++ "_" ++ g.1.2 ++ "_" ++
                   pr.1 ++ "_" ++ pr.2)
                 ctype := CType.resource_conflict
                 varIds := conflicting.map (fun v => v.id)
                 satisfied := false }]
        else []))

/-- `addWorkloadConstraints`: one constraint (of declared type
`teacher_availability`) per teacher group. -/
def workloadCons (vars : List CPVariable) : List CPConstraint :=
  (groupByKey (fun v : CPVariable => v.teacherId) vars).map (fun g =>
    { id := ("workload_" ++ g.1)
      ctype := CType.teacher_availability
      varIds := g.2.map (fun v => v.id)
      satisfied := false })

/-- `initializeVariables` + `initializeConstraints`. -/
def initState (inp : EngineInput) : CPState :=
  let vars := initVars inp
  ⟨vars, resourceConflictCons vars ++ subjectRequirementCons vars ++
    teacherDiversityCons vars ++ workloadCons vars⟩

/-- `this.variables.get(id)` (first match; JS map keys are unique). -/
def lookupVar (vars : List CPVariable) (vid : String) : Option CPVariable :=
  vars.find? (fun v => v.id = vid)

/-- `variables.has(id) && variables.get(id).domain`. -/
def isActive (vars : List CPVariable) (vid : String) : Bool :=
  ((lookupVar vars vid).map (fun v => v.domain)).getD false

/-- The still-candidate variables of a constraint:
`constraint.variables.filter(id => variables.has(id) && get(id).domain)`. -/
def activeIds (vars : List CPVariable) (ids : List String) : List String :=
  ids.filter (fun vid => isActive vars vid)

/-- `this.variables.get(varId).domain = false`. -/
def disableVar (vars : List CPVariable) (vid : String) : List CPVariable :=
  vars.map (fun v => if v.id = vid then { v with domain := false } else v)

/-- `propagateConstraint`: when a `resource_conflict` group has exactly one
still-candidate variable, mark the constraint satisfied and disable every
other present group member (setting `changed` for each). -/
def propagateConstraint (vars : List CPVariable) (c : CPConstraint) :
    CPConstraint × List CPVariable × Bool :=
  if c.ctype = CType.resource_conflict then
    match activeIds vars c.varIds with
    | [a0] =>
        let vb := c.varIds.foldl
          (fun (p : List CPVariable × Bool) vid =>
            if vid ≠ a0 ∧ (lookupVar p.1 vid).isSome then (disableVar p.1 vid, true)
            else p) (vars, false)
        ({ c with satisfied := true }, vb.1, vb.2)
    | _ => (c, vars, false)
  else (c, vars, false)

/-- One round of the propagation `while` body: propagate each constraint in
order, then delete every variable whose domain collapsed. -/
def propRound (st : CPState) : CPState × Bool :=
  let folded := st.cons.foldl
    (fun (acc : List CPConstraint × List CPVariable × Bool) c =>
      let r := propagateConstraint acc.2.1 c
      (acc.1 ++ [r.1], r.2.1, acc.2.2 || r.2.2)) ([], st.vars, false)
  let deleted := folded.2.1.any (fun v => !v.domain)
  (⟨folded.2.1.filter (fun v => v.domain), folded.1⟩, folded.2.2 || deleted)

/-- The capped fixpoint loop (`maxIterations = 100`). -/
def propagationGo : Nat → CPState → CPState
  | 0, st => st
  | Nat.succ n, st =>
      match propRound st with
      | (st', ch) => if ch then propagationGo n st' else st'

/-- `constraintPropagation`. -/
def constraintPropagation (st : CPState) : CPState := propagationGo 100 st

/-- `countConflicts`: the number of constraints touching a variable. -/
def countConflicts (cons : List CPConstraint) (vid : String) : Nat :=
  (cons.filter (fun c => vid ∈ c.varIds)).length

/-- `chooseVariable`: minimum-remaining-constraints heuristic, first
minimizer wins (`unassigned[0]` seeds the search). -/
def chooseVariable (cons : List CPConstraint) (unassigned : List String) :
    String :=
  match unassigned with
  | [] => ""
  | v0 :: _ =>
      unassigned.foldl
        (fun best v =>
          if countConflicts cons v < countConflicts cons best then v else best) v0

/-- `checkConstraint`: a `resource_conflict` allows at most one variable
assigned `true`; all other kinds are unchecked. -/
def checkConstraint (c : CPConstraint) (m : List (String × Bool)) : Bool :=
  if c.ctype = CType.resource_conflict then
    (c.varIds.filter (fun vid => mget m vid = some true)).length ≤ 1
  else true

/-- `isConsistent`: every constraint touching the variable checks out. -/
def isConsistent (cons : List CPConstraint) (m : List (String × Bool))
    (v : String) : Bool :=
  (cons.filter (fun c => v ∈ c.varIds)).all (fun c => checkConstraint c m)

/-- `forwardCheck`: keep the remaining variables that could still be set
`true` consistently (never `null` in the source either). -/
def forwardCheck (cons : List CPConstraint) (m : List (String × Bool))
    (remaining : List String) : List String :=
  remaining.filter (fun vid => isConsistent cons (mset m vid true) vid)

/-- The required (subject, section) demand units of
`isAssignmentComplete`: all subjects of each course and section (note: no
parity filter here, unlike variable construction). -/
def requiredSubjects (inp : EngineInput) : List (String × String) :=
  inp.courses.foldl (fun acc course =>
    course.sections.foldl (fun acc2 sec =>
      inp.subjects.foldl (fun acc3 subject =>
        if subject.courseId = course.id then sadd acc3 (subject.id, sec)
        else acc3) acc2) acc) []

/-- The (subject, section) units covered by variables assigned `true`. -/
def assignedSubjects (vars : List CPVariable) (m : List (String × Bool)) :
    List (String × String) :=
  m.foldl (fun acc p =>
    if p.2 = true then
      match lookupVar vars p.1 with
      | some v => sadd acc (v.subjectId, v.sectionLabel)
      | none => acc
    else acc) []

/-- `isAssignmentComplete`: coverage
`assigned.size / max(required.size, 1) ≥ 0.7`. -/
def isAssignmentComplete (inp : EngineInput) (vars : List CPVariable)
    (m : List (String × Bool)) : Bool :=
  let required := requiredSubjects inp
  let assigned := assignedSubjects vars m
  ((assigned.length : ℚ) / ((max required.length 1 : Nat) : ℚ)) ≥ 7/10

/-- `backtrack`, fueled: the JS recursion terminates because each call
recurses on a strictly shorter unassigned list (`remaining` drops the
chosen variable, and the forward-check inference is a sublist of it), so
any fuel above `unassigned.length` computes the same result; the map is
passed functionally, which agrees with the source because every failing
frame deletes its own entry before returning `null`. -/
def backtrackFuel (inp : EngineInput) (st : CPState) :
    Nat → List (String × Bool) → List String → Option (List (String × Bool))
  | 0, _, _ => none
  | Nat.succ n, m, unassigned =>
      match unassigned with
      | [] => if isAssignmentComplete inp st.vars m then some m else none
      | v0 :: vrest =>
          let v := chooseVariable st.cons (v0 :: vrest)
          let remaining := (v0 :: vrest).filter (fun x => x ≠ v)
          let m1 := mset m v true
          match (if isConsistent st.cons m1 v then
              backtrackFuel inp st n m1 (forwardCheck st.cons m1 remaining)
            else none) with
          | some a => some a
          | none =>
              let m2 := mset m v false
              if isConsistent st.cons m2 v then backtrackFuel inp st n m2 remaining
              else none

/-- `backtrackingSearch`. -/
def backtrackingSearch (inp : EngineInput) (st : CPState) :
    Option (List (String × Bool)) :=
  let unassigned := (st.vars.filter (fun v => v.domain)).map (fun v => v.id)
  backtrackFuel inp st (unassigned.length + 1) [] unassigned

/-- `assignmentToSchedule` (fresh ids modelled by a counter). -/
def assignmentToSchedule (inp : EngineInput) (vars : List CPVariable)
    (m : List (String × Bool)) : List ClassSchedule :=
  m.foldl (fun acc p =>
    if p.2 = true then
      match lookupVar vars p.1 with
      | some v =>
          match inp.timeSlots.find? (fun ts => ts.id = v.timeSlotId) with
          | some ts => acc ++
              [{ id := ("class_" ++ toString acc.length)
                 courseId := v.courseId
                 subjectId := some v.subjectId
                 sectionLabel := some v.sectionLabel
                 semester := none
                 teacherId := v.teacherId
                 roomId := v.roomId
                 timeSlotId := v.timeSlotId
                 day := ts.day
                 startTime := ts.startTime
                 endTime := ts.endTime }]
          | none => acc
      | none => acc
    else acc) []

/-- `CPSATSolver.detectConflicts`: exact-key grouping by
(room, day, start) and (teacher, day, start). -/
def detectConflictsCP (schedule : List ClassSchedule) : List Conflict :=
  ((groupByKey (fun c : ClassSchedule => (c.roomId, c.day, c.startTime))
      schedule).filterMap (fun g =>
    if 1 < g.2.length then
      some { type := ConflictType.room_conflict
             description := ("Room conflict at " ++ g.1.1 ++ "_" ++ g.1.2.1 ++
               "_" ++ toString g.1.2.2)
             severity := Severity.high
             classes := g.2.map (fun c => c.id) }
    else none)) ++
  ((groupByKey (fun c : ClassSchedule => (c.teacherId, c.day, c.startTime))
      schedule).filterMap (fun g =>
    if 1 < g.2.length then
      some { type := ConflictType.teacher_conflict
             description := ("Teacher conflict at " ++ g.1.1 ++ "_" ++ g.1.2.1 ++
               "_" ++ toString g.1.2.2)
             severity := Severity.high
             classes := g.2.map (fun c => c.id) }
    else none))

/-- `CPSATSolver.calculateMetrics` (divisions by zero follow the ℚ
convention; degenerate inputs aside, this matches the JS arithmetic). -/
def calculateMetricsCP (inp : EngineInput) (schedule : List ClassSchedule)
    (conflicts : List Conflict) : OptimizationMetrics :=
  let totalConflicts : ℚ := (conflicts.length : ℚ)
  let totalSlots : ℚ := (inp.timeSlots.length : ℚ) * 5
  let roomCounts := (groupByKey (fun c : ClassSchedule => c.roomId) schedule).map
    (fun g => (g.2.length : ℚ))
  let roomUtilization := roomCounts.sum / ((inp.rooms.length : ℚ) * totalSlots)
  let workloads := (groupByKey (fun c : ClassSchedule => c.teacherId) schedule).map
    (fun g => (g.2.length : ℚ))
  let avg := workloads.sum / (workloads.length : ℚ)
  let variance := (workloads.map (fun w => (w - avg) ^ 2)).sum /
    (workloads.length : ℚ)
  let twb := max 0 (1 - variance / (if avg * avg = 0 then 1 else avg * avg))
  { totalConflicts := totalConflicts
    roomUtilization := roomUtilization
    teacherWorkloadBalance := twb
    studentSatisfaction := max 0 (1 - totalConflicts / (schedule.length : ℚ))
    constraintSatisfaction := max 0 (1 - totalConflicts / 10) }

/-- `CPSATSolver.calculateFitness`: `1000 − 50·conflicts`, floored at 0. -/
def calculateFitnessCP (schedule : List ClassSchedule) : ℚ :=
  max (1000 - ((detectConflictsCP schedule).length : ℚ) * 50) 0

/-- `getConstraintScore` (with `Math.log` abstracted as `jsLog`). -/
def getConstraintScore (jsLog : Nat → ℚ) (course : Course) : ℚ :=
  (course.requiredEquipment.length : ℚ) * 10 +
    jsLog course.studentsCount * 5 + (course.sessionsPerWeek : ℚ) * 3

/-- Running occupancy state of the greedy constructive fallback. -/
structure GreedyState where
  sched : List ClassSchedule
  roomUsage : List (String × List (String × String × Nat))
  teacherUsage : List (String × List (String × String × Nat))

/-- `findBestAssignment`: collect every feasible (room, slot) assignment in
loop order, then prefer the first inside the preferred window, else the
first overall. -/
def findBestAssignment (inp : EngineInput) (course : Course) (teacher : Teacher)
    (roomUsage teacherUsage : List (String × List (String × String × Nat)))
    (k : Nat) : Option ClassSchedule :=
  let avail := inp.rooms.flatMap (fun room =>
    if room.type = course.roomType ∧ course.studentsCount ≤ room.capacity ∧
        course.requiredEquipment.all (fun eq => eq ∈ room.equipment) then
      inp.timeSlots.filterMap (fun ts =>
        if (teacher.availability.any (fun av =>
              av.day = ts.day ∧ ts.id ∈ av.timeSlots)) ∧
            (room.id, ts.day, ts.startTime) ∉ (mget roomUsage room.id).getD [] ∧
            (teacher.id, ts.day, ts.startTime) ∉
              (mget teacherUsage teacher.id).getD [] then
          some { id := (course.id ++ "_" ++ toString k)
                 courseId := course.id
                 subjectId := none
                 sectionLabel := none
                 semester := none
                 teacherId := teacher.id
                 roomId := room.id
                 timeSlotId := ts.id
                 day := ts.day
                 startTime := ts.startTime
                 endTime := ts.endTime }
        else none)
    else [])
  match avail with
  | [] => none
  | a :: _ =>
      match avail.filter (fun asg =>
          inp.constraints.preferredStartTime ≤ asg.startTime ∧
            asg.startTime ≤ inp.constraints.preferredEndTime) with
      | [] => some a
      | p :: _ => some p

/-- `generateConstraintBasedSchedule`: sort courses by descending
constraint-tightness score (stable, as JS sort), then greedily place each
course's sessions with its own teacher, maintaining occupancy sets. -/
def generateConstraintBasedSchedule (inp : EngineInput) (jsLog : Nat → ℚ) :
    List ClassSchedule :=
  let sorted := jsSort (fun a b =>
    getConstraintScore jsLog b ≤ getConstraintScore jsLog a) inp.courses
  (sorted.foldl (fun (gst : GreedyState) course =>
    match inp.teachers.find? (fun t => t.id = course.teacherId) with
    | none => gst
    | some teacher =>
        (List.range course.sessionsPerWeek).foldl (fun gst2 _ =>
          match findBestAssignment inp course teacher gst2.roomUsage
              gst2.teacherUsage gst2.sched.length with
          | none => gst2
          | some a =>
              { sched := gst2.sched ++ [a]
                roomUsage := gadd gst2.roomUsage a.roomId
                  (a.roomId, a.day, a.startTime)
                teacherUsage := gadd gst2.teacherUsage a.teacherId
                  (a.teacherId, a.day, a.startTime) }) gst)
    ⟨[], [], []⟩).sched

/-- `solveWithRelaxedConstraints`: the greedy constructive fallback wrapped
as an `OptimizationResult`. -/
def solveWithRelaxedConstraints (inp : EngineInput) (jsLog : Nat → ℚ) :
    OptimizationResult :=
  let schedule := generateConstraintBasedSchedule inp jsLog
  let conflicts := detectConflictsCP schedule
  { schedule := schedule
    fitness := calculateFitnessCP schedule
    conflicts := conflicts
    metrics := calculateMetricsCP inp schedule conflicts
    generationData := [] }

/-- `CPSATSolver.solve`: initialize, propagate, search; wrap a found
assignment, else fall back to the greedy constructive scheduler. -/
def solve (inp : EngineInput) (jsLog : Nat → ℚ) : OptimizationResult :=
  let st := constraintPropagation (initState inp)
  match backtrackingSearch inp st with
  | some a =>
      let schedule := assignmentToSchedule inp st.vars a
      let conflicts := detectConflictsCP schedule
      { schedule := schedule
        fitness := calculateFitnessCP schedule
        conflicts := conflicts
        metrics := calculateMetricsCP inp schedule conflicts
        generationData := [] }
  | none => solveWithRelaxedConstraints inp jsLog

end CPSAT

/-! ## Concrete scenario data for the CP-SAT claims -/

/-- The constant-zero stand-in for `Math.log` used by witnesses. -/
def jsLog0 : Nat → ℚ := fun _ => 0

/-- C9 witness input: one course/section/subject, one qualified available
teacher, one adequate room, one slot inside the preferred window. -/
def c9winp : EngineInput :=
  ⟨[⟨"C", ["A"], "", 0, SType.theory, [], 1⟩],
   [⟨"t", [], some "C", [⟨"Monday", ["T1"]⟩]⟩],
   [⟨"r", SType.theory, 60, []⟩],
   [⟨"T1", "Monday", 540, 600⟩],
   ⟨0, 0, 1440, none⟩,
   [⟨"s", "C", 1, SType.theory⟩]⟩

/-- A solver state holding the single candidate variable of `c9winp`. -/
def c9st : CPSAT.CPState :=
  ⟨[⟨"C_s_A_t_r_T1", "C", "s", "A", "t", "r", "T1", true⟩], []⟩

/-- The assignment selecting that variable. -/
def c9m : List (String × Bool) := [("C_s_A_t_r_T1", true)]

/-- C9 input on which the backtracking search fails (no teachers, so no
variables, while one (subject, section) demand unit is required). -/
def c9xinp : EngineInput :=
  ⟨[⟨"C", ["A"], "", 0, SType.theory, [], 1⟩], [], [], [],
   ⟨0, 0, 1440, none⟩, [⟨"s", "C", 1, SType.theory⟩]⟩

/-- C10 input: two subjects of one course section compete for the single
feasible slot with the same teacher and room. -/
def c10inp : EngineInput :=
  ⟨[⟨"c", ["A"], "", 0, SType.theory, [], 1⟩],
   [⟨"t", [], some "c", [⟨"Monday", ["T1"]⟩]⟩],
   [⟨"r", SType.theory, 60, []⟩],
   [⟨"T1", "Monday", 540, 600⟩],
   ⟨0, 0, 1440, none⟩,
   [⟨"s1", "c", 1, SType.theory⟩, ⟨"s2", "c", 1, SType.theory⟩]⟩

/-! # Lemmas and claim theorems -/

namespace GA

lemma teacherClash_symm {a b : ClassSchedule} (h : teacherClash a b) :
    teacherClash b a :=
  ⟨h.1.symm, h.2.1.symm, h.2.2.2, h.2.2.1⟩

lemma roomClash_symm {a b : ClassSchedule} (h : roomClash a b) :
    roomClash b a :=
  ⟨h.1.symm, h.2.1.symm, h.2.2.2, h.2.2.1⟩

lemma noClash_symm {a b : ClassSchedule} (h : noClash a b) : noClash b a :=
  ⟨fun hc => h.1 (teacherClash_symm hc), fun hc => h.2 (roomClash_symm hc)⟩

lemma classPairConflicts_eq_nil {e c : ClassSchedule} :
    classPairConflicts e c = [] ↔ noClash e c := by
  unfold classPairConflicts noClash
  constructor
  · intro h
    constructor
    · intro hc
      simp [hc] at h
    · intro hc
      simp [hc] at h
  · intro ⟨h1, h2⟩
    simp [h1, h2]

lemma detectConflictsForClass_eq_nil {c : ClassSchedule}
    {kept : List ClassSchedule} :
    detectConflictsForClass c kept = [] ↔ ∀ e ∈ kept, noClash e c := by
  induction kept with
  | nil => simp [detectConflictsForClass]
  | cons e rest ih =>
      simp only [detectConflictsForClass, List.append_eq_nil, ih,
        classPairConflicts_eq_nil, List.mem_cons]
      constructor
      · intro ⟨h1, h2⟩ x hx
        rcases hx with rfl | hx
        · exact h1
        · exact h2 x hx
      · intro h
        exact ⟨h e (Or.inl rfl), fun x hx => h x (Or.inr hx)⟩

lemma conflictsAgainst_eq_nil {c : ClassSchedule} {rest : List ClassSchedule} :
    conflictsAgainst c rest = [] ↔ ∀ d ∈ rest, noClash c d := by
  induction rest with
  | nil => simp [conflictsAgainst]
  | cons d rest ih =>
      simp only [conflictsAgainst, List.append_eq_nil, ih, List.mem_cons]
      unfold pairConflicts noClash
      constructor
      · intro ⟨h1, h2⟩ x hx
        rcases hx with rfl | hx
        · constructor
          · intro hc
            simp [hc] at h1
          · intro hc
            simp [hc] at h1
        · exact h2 x hx
      · intro h
        refine ⟨?_, fun x hx => h x (Or.inr hx)⟩
        have := h d (Or.inl rfl)
        simp [this.1, this.2]

lemma detectConflicts_eq_nil {l : List ClassSchedule} :
    detectConflicts l = [] ↔ List.Pairwise noClash l := by
  induction l with
  | nil => simp [detectConflicts]
  | cons c rest ih =>
      simp only [detectConflicts, List.append_eq_nil, ih,
        conflictsAgainst_eq_nil, List.pairwise_cons]

lemma findAltGo_spec {c c' : ClassSchedule} {kept : List ClassSchedule}
    {t : Teacher} {slots : List TimeSlot}
    (h : findAltGo c kept t slots = some c') :
    detectConflictsForClass c' kept = [] ∧ ∃ ts ∈ slots, c' = retime c ts := by
  induction slots with
  | nil => simp [findAltGo] at h
  | cons ts rest ih =>
      unfold findAltGo at h
      by_cases hav : teacherAvailableOn t ts
      · simp only [hav, if_true] at h
        by_cases hcf : detectConflictsForClass (retime c ts) kept = []
        · simp only [hcf, if_true, Option.some.injEq] at h
          subst h
          exact ⟨hcf, ts, List.mem_cons_self ts rest, rfl⟩
        · simp only [hcf, if_false] at h
          obtain ⟨h1, ts', hts', h2⟩ := ih h
          exact ⟨h1, ts', List.mem_cons_of_mem ts hts', h2⟩
      · simp only [hav, if_false] at h
        obtain ⟨h1, ts', hts', h2⟩ := ih h
        exact ⟨h1, ts', List.mem_cons_of_mem ts hts', h2⟩

lemma findAlternativeSlot_spec {inp : EngineInput} {c c' : ClassSchedule}
    {kept : List ClassSchedule}
    (h : findAlternativeSlot inp c kept = some c') :
    detectConflictsForClass c' kept = [] ∧
      ∃ ts ∈ inp.timeSlots, c' = retime c ts := by
  unfold findAlternativeSlot at h
  cases hf : inp.teachers.find? (fun t => t.id = c.teacherId) with
  | none => rw [hf] at h; exact absurd h (by simp)
  | some t => rw [hf] at h; exact findAltGo_spec h

lemma pairwise_concat_of {l : List ClassSchedule} {c : ClassSchedule}
    (hl : List.Pairwise noClash l) (hc : ∀ e ∈ l, noClash e c) :
    List.Pairwise noClash (l ++ [c]) := by
  rw [List.pairwise_append]
  exact ⟨hl, List.pairwise_singleton _ _, fun a ha b hb => by
    rw [List.mem_singleton] at hb; subst hb; exact hc a ha⟩

lemma repairStep_pairwise {inp : EngineInput} {st : RepairState}
    {c : ClassSchedule} (h : List.Pairwise noClash st.kept) :
    List.Pairwise noClash (repairStep inp st c).kept := by
  unfold repairStep
  by_cases hu : slotKey c ∈ st.used
  · simpa [hu]
  · simp only [hu, if_false]
    by_cases hcf : detectConflictsForClass c st.kept = []
    · simp only [hcf, if_true]
      exact pairwise_concat_of h (detectConflictsForClass_eq_nil.mp hcf)
    · simp only [hcf, if_false]
      cases hf : findAlternativeSlot inp c st.kept with
      | none => simpa
      | some c' =>
          simp only []
          exact pairwise_concat_of h
            (detectConflictsForClass_eq_nil.mp (findAlternativeSlot_spec hf).1)

lemma foldl_repairStep_pairwise (inp : EngineInput) :
    ∀ (S : List ClassSchedule) (st : RepairState),
      List.Pairwise noClash st.kept →
      List.Pairwise noClash (S.foldl (repairStep inp) st).kept
  | [], _, h => h
  | c :: rest, st, h =>
      foldl_repairStep_pairwise inp rest (repairStep inp st c)
        (repairStep_pairwise h)

lemma mem_sadd {α : Type} [DecidableEq α] {s : List α} {a x : α} :
    x ∈ sadd s a ↔ x ∈ s ∨ x = a := by
  by_cases h : a ∈ s
  · simp only [sadd, h, if_true]
    constructor
    · exact Or.inl
    · rintro (hx | rfl)
      · exact hx
      · exact h
  · simp [sadd, h]

lemma nodup_concat_of {α : Type} {l : List α} {k : α} (h : l.Nodup)
    (hk : k ∉ l) : (l ++ [k]).Nodup := by
  rw [show (l ++ [k]).Nodup ↔ l.Nodup ∧ k ∉ l by simp [List.nodup_append]]
  exact ⟨h, hk⟩

lemma key_fresh_of_clash_free {kept : List ClassSchedule} {c : ClassSchedule}
    (hcf : detectConflictsForClass c kept = [])
    (hpos : ∀ x ∈ kept, x.startTime < x.endTime)
    (hc : c.startTime < c.endTime) :
    slotKey c ∉ kept.map slotKey := by
  intro hmem
  obtain ⟨x, hx, hkey⟩ := List.mem_map.mp hmem
  have hnc : noClash x c := detectConflictsForClass_eq_nil.mp hcf x hx
  have h1 : x.teacherId = c.teacherId := congrArg Prod.fst hkey
  have h3 : x.day = c.day := congrArg (fun p => p.2.2.1) hkey
  have h4 : x.startTime = c.startTime := congrArg (fun p => p.2.2.2) hkey
  exact hnc.1 ⟨h1, h3, by rw [h4]; exact hc, by rw [← h4]; exact hpos x hx⟩

lemma repairStep_inv {inp : EngineInput} {st : RepairState} {c : ClassSchedule}
    (hslots : ∀ ts ∈ inp.timeSlots, ts.startTime < ts.endTime)
    (hc : c.startTime < c.endTime) (h : RepairInv st) :
    RepairInv (repairStep inp st c) := by
  obtain ⟨hPW, hND, hPos, hSub⟩ := h
  unfold repairStep
  by_cases hu : slotKey c ∈ st.used
  · simpa [hu] using ⟨hPW, hND, hPos, hSub⟩
  · simp only [hu, if_false]
    by_cases hcf : detectConflictsForClass c st.kept = []
    · simp only [hcf, if_true]
      refine ⟨pairwise_concat_of hPW (detectConflictsForClass_eq_nil.mp hcf),
        ?_, ?_, ?_⟩
      · rw [List.map_append]
        refine nodup_concat_of hND (fun hmem => ?_)
        obtain ⟨x, hx, hkey⟩ := List.mem_map.mp hmem
        exact hu (hkey ▸ hSub x hx)
      · intro x hx
        rcases List.mem_append.mp hx with hx | hx
        · exact hPos x hx
        · rw [List.mem_singleton.mp hx]; exact hc
      · intro x hx
        rcases List.mem_append.mp hx with hx | hx
        · exact mem_sadd.mpr (Or.inl (hSub x hx))
        · rw [List.mem_singleton.mp hx]; exact mem_sadd.mpr (Or.inr rfl)
    · simp only [hcf, if_false]
      cases hf : findAlternativeSlot inp c st.kept with
      | none => simpa using ⟨hPW, hND, hPos, hSub⟩
      | some c' =>
          obtain ⟨hcf', ts, hts, hret⟩ := findAlternativeSlot_spec hf
          have hc' : c'.startTime < c'.endTime := by
            rw [hret]; exact hslots ts hts
          refine ⟨pairwise_concat_of hPW
            (detectConflictsForClass_eq_nil.mp hcf'), ?_, ?_, ?_⟩
          · rw [List.map_append]
            exact nodup_concat_of hND (key_fresh_of_clash_free hcf' hPos hc')
          · intro x hx
            rcases List.mem_append.mp hx with hx | hx
            · exact hPos x hx
            · rw [List.mem_singleton.mp hx]; exact hc'
          · intro x hx
            rcases List.mem_append.mp hx with hx | hx
            · exact mem_sadd.mpr (Or.inl (hSub x hx))
            · rw [List.mem_singleton.mp hx]; exact mem_sadd.mpr (Or.inr rfl)

lemma foldl_repairStep_inv (inp : EngineInput)
    (hslots : ∀ ts ∈ inp.timeSlots, ts.startTime < ts.endTime) :
    ∀ (S : List ClassSchedule) (st : RepairState),
      (∀ c ∈ S, c.startTime < c.endTime) → RepairInv st →
      RepairInv (S.foldl (repairStep inp) st)
  | [], _, _, h => h
  | c :: rest, st, hS, h =>
      foldl_repairStep_inv inp hslots rest (repairStep inp st c)
        (fun x hx => hS x (List.mem_cons_of_mem c hx))
        (repairStep_inv hslots (hS c (List.mem_cons_self c rest)) h)

lemma foldl_repairStep_fixed (inp : EngineInput) :
    ∀ (rest pre : List ClassSchedule) (st : RepairState),
      st.kept = pre →
      (∀ k, k ∈ st.used ↔ k ∈ pre.map slotKey) →
      List.Pairwise noClash (pre ++ rest) →
      ((pre ++ rest).map slotKey).Nodup →
      (rest.foldl (repairStep inp) st).kept = pre ++ rest
  | [], pre, st, h1, _, _, _ => by simpa using h1
  | c :: rest, pre, st, h1, h2, h3, h4 => by
      have hdisj : slotKey c ∉ pre.map slotKey := by
        intro hmem
        rw [List.map_append] at h4
        have := (List.nodup_append.mp h4).2.2
        exact this hmem (by simp)
      have hkey : slotKey c ∉ st.used := fun hm => hdisj ((h2 _).mp hm)
      have hcf : detectConflictsForClass c pre = [] := by
        rw [detectConflictsForClass_eq_nil]
        intro e he
        exact (List.pairwise_append.mp h3).2.2 e he c (by simp)
      have hstep : repairStep inp st c =
          ⟨pre ++ [c], sadd st.used (slotKey c)⟩ := by
        unfold repairStep
        rw [h1]
        simp [hkey, hcf]
      rw [List.foldl_cons, hstep]
      have hrw : pre ++ c :: rest = (pre ++ [c]) ++ rest := by simp
      rw [hrw] at h3 h4 ⊢
      exact foldl_repairStep_fixed inp rest (pre ++ [c])
        ⟨pre ++ [c], sadd st.used (slotKey c)⟩ rfl
        (fun k => by
          rw [mem_sadd, h2 k, List.map_append, List.mem_append]
          simp [eq_comm])
        h3 h4

end GA

/-- A fold preserves any invariant its step preserves. -/
lemma foldl_preserve {σ β : Type} (P : σ → Prop) (step : σ → β → σ)
    (hstep : ∀ s b, P s → P (step s b)) :
    ∀ (l : List β) (s : σ), P s → P (l.foldl step s)
  | [], _, h => h
  | b :: rest, s, h =>
      foldl_preserve P step hstep rest (step s b) (hstep s b h)

lemma galoc_mem {κ ν : Type} [DecidableEq κ] {m : List (κ × List ν)} {k : κ}
    {v x : ν} {p : κ × List ν} (hp : p ∈ galoc m k v) (hx : x ∈ p.2) :
    (∃ q ∈ m, x ∈ q.2) ∨ x = v := by
  unfold galoc at hp
  by_cases hA : m.any (fun q => q.1 = k)
  · simp only [hA, if_true] at hp
    obtain ⟨q, hq, heq⟩ := List.mem_map.mp hp
    by_cases hqk : q.1 = k
    · rw [if_pos hqk] at heq
      subst heq
      rcases List.mem_append.mp hx with hx | hx
      · exact Or.inl ⟨q, hq, hx⟩
      · exact Or.inr (List.mem_singleton.mp hx)
    · rw [if_neg hqk] at heq
      subst heq
      exact Or.inl ⟨q, hq, hx⟩
  · simp only [hA, if_false] at hp
    rcases List.mem_append.mp hp with hp | hp
    · exact Or.inl ⟨p, hp, hx⟩
    · rw [List.mem_singleton.mp hp] at hx
      exact Or.inr (List.mem_singleton.mp hx)

lemma foldl_galoc_mem {α κ : Type} [DecidableEq κ] (key : α → κ)
    (P : α → Prop) :
    ∀ (l : List α) (m : List (κ × List α)),
      (∀ p ∈ m, ∀ x ∈ p.2, P x) → (∀ a ∈ l, P a) →
      ∀ p ∈ l.foldl (fun m a => galoc m (key a) a) m, ∀ x ∈ p.2, P x
  | [], _, hm, _, p, hp, x, hx => hm p hp x hx
  | a :: rest, m, hm, hl, p, hp, x, hx =>
      foldl_galoc_mem key P rest (galoc m (key a) a)
        (fun _ hq y hy =>
          match galoc_mem hq hy with
          | Or.inl ⟨q', hq', hy'⟩ => hm q' hq' y hy'
          | Or.inr hy' => hy' ▸ hl a (List.mem_cons_self a rest))
        (fun b hb => hl b (List.mem_cons_of_mem a hb)) p hp x hx

lemma groupByKey_mem {α κ : Type} [DecidableEq κ] (key : α → κ)
    (l : List α) : ∀ p ∈ groupByKey key l, ∀ x ∈ p.2, x ∈ l :=
  foldl_galoc_mem key (fun x => x ∈ l) l [] (by simp) (fun _ ha => ha)

lemma mem_jsSortInsert {α : Type} {le : α → α → Bool} {a x : α} :
    ∀ {l : List α}, x ∈ jsSortInsert le a l ↔ x = a ∨ x ∈ l
  | [] => by simp [jsSortInsert]
  | b :: rest => by
      unfold jsSortInsert
      by_cases hle : le b a
      · rw [if_pos hle]
        simp only [List.mem_cons, mem_jsSortInsert]
        tauto
      · rw [if_neg hle]
        simp only [List.mem_cons]

lemma mem_jsSort {α : Type} {le : α → α → Bool} {x : α} {l : List α} :
    x ∈ jsSort le l ↔ x ∈ l := by
  suffices h : ∀ (l : List α) (acc : List α),
      (x ∈ l.foldl (fun acc a => jsSortInsert le a acc) acc ↔
        x ∈ acc ∨ x ∈ l) by
    have := h l []
    simpa [jsSort] using this
  intro l
  induction l with
  | nil => simp
  | cons a rest ih =>
      intro acc
      rw [List.foldl_cons, ih (jsSortInsert le a acc), mem_jsSortInsert]
      simp only [List.mem_cons]
      tauto

namespace Hybrid

lemma dayToSlots_mem {slots : List TimeSlot} {day : String}
    {l : List TimeSlot} (h : mget (dayToSlots slots) day = some l) :
    ∀ s ∈ l, s ∈ slots := by
  intro s hsl
  unfold mget at h
  obtain ⟨p, hfind, hp2⟩ := Option.map_eq_some'.mp h
  have hpmem := List.mem_of_find?_eq_some hfind
  unfold dayToSlots at hpmem
  obtain ⟨b, hb, hbeq⟩ := List.mem_map.mp hpmem
  have hs2 : s ∈ jsSort (fun a c => a.startTime ≤ c.startTime) b.2 := by
    have : p.2 = jsSort (fun a c => a.startTime ≤ c.startTime) b.2 := by
      rw [← hbeq]
    rw [← this, hp2]
    exact hsl
  exact groupByKey_mem _ slots b hb s (mem_jsSort.mp hs2)

lemma placeDemand_sum {day : String} :
    ∀ {l : List HDemand} {d : HDemand} {l' : List HDemand},
      placeDemand day l = some (d, l') →
      (l'.map (fun x => x.remaining)).sum + 1 =
        (l.map (fun x => x.remaining)).sum
  | [], _, _, h => by simp [placeDemand] at h
  | d0 :: rest, d, l', h => by
      unfold placeDemand at h
      by_cases hc : 0 < d0.remaining ∧ day ∉ d0.usedDays
      · simp only [hc, if_true, Option.some.injEq, Prod.mk.injEq] at h
        obtain ⟨rfl, rfl⟩ := h
        simp only [List.map_cons, List.sum_cons]
        omega
      · simp only [hc, if_false, Option.map_eq_some'] at h
        obtain ⟨p, hp, heq⟩ := h
        have ih := placeDemand_sum hp
        have h2 : l' = d0 :: p.2 := (congrArg Prod.snd heq).symm
        subst h2
        simp only [List.map_cons, List.sum_cons]
        omega

lemma pickTeacher_mem {t0 : Teacher} {avail : List Teacher}
    {assigned : List (String × String)} (ht0 : t0 ∈ avail) :
    pickTeacher t0 avail assigned ∈ avail := by
  unfold pickTeacher
  cases hf : avail.filter (fun t => t.id ∉ assigned.map (fun p => p.2)) with
  | nil => exact ht0
  | cons u us =>
      have : u ∈ avail.filter (fun t => t.id ∉ assigned.map (fun p => p.2)) := by
        rw [hf]; exact List.mem_cons_self u us
      exact List.mem_of_mem_filter this

lemma attemptSlot_placed_spec {inp : EngineInput} {course : Course}
    {sec day : String} {hs hs' : HybState} {ss ss' : SectState}
    {slot : TimeSlot} (hslot : slot ∈ inp.timeSlots)
    (h : attemptSlot inp course sec day hs ss slot =
      PlaceOutcome.placed hs' ss') :
    (HybInv inp hs → HybInv inp hs') ∧ sumRem ss' + 1 = sumRem ss := by
  unfold attemptSlot at h
  split at h
  next => exact PlaceOutcome.noConfusion h
  next d demand' hpd =>
      simp only [] at h
      split at h
      next => exact PlaceOutcome.noConfusion h
      next t0 tl hav =>
          split at h
          next => exact PlaceOutcome.noConfusion h
          next room hroom =>
              split at h
              next hocc => exact PlaceOutcome.noConfusion h
              next hocc =>
                obtain ⟨rfl, rfl⟩ := (PlaceOutcome.placed.injEq _ _ _ _).mp h
                set teacher := pickTeacher t0 (t0 :: tl) ss.assigned with hteach
                have hTmem : teacher ∈ inp.teachers.filter (fun t =>
                    (d.subject.id ∈ t.taughtSubjectIds ∨
                      t.departmentCourseId = some course.id) ∧
                    (t.id, slot.id) ∉ hs.occT) := by
                  rw [hav]
                  exact pickTeacher_mem (List.mem_cons_self t0 tl)
                have hTfilt := List.of_mem_filter hTmem
                simp only [decide_eq_true_eq] at hTfilt
                have hTfree : (teacher.id, slot.id) ∉ hs.occT := hTfilt.2
                have hRfilt := List.find?_some hroom
                simp only [decide_eq_true_eq] at hRfilt
                have hRfree : (room.id, slot.id) ∉ hs.occR := hRfilt.2
                constructor
                · intro hinv
                  obtain ⟨hTN, hRN, hTS, hRS, hLink⟩ := hinv
                  refine ⟨?_, ?_, ?_, ?_, ?_⟩
                  · rw [List.map_append]
                    refine GA.nodup_concat_of hTN (fun hmem => ?_)
                    obtain ⟨x, hx, hkey⟩ := List.mem_map.mp hmem
                    have hkey' : (x.teacherId, x.timeSlotId) =
                        (teacher.id, slot.id) := hkey
                    exact hTfree (hkey' ▸ hTS x hx)
                  · rw [List.map_append]
                    refine GA.nodup_concat_of hRN (fun hmem => ?_)
                    obtain ⟨x, hx, hkey⟩ := List.mem_map.mp hmem
                    have hkey' : (x.roomId, x.timeSlotId) =
                        (room.id, slot.id) := hkey
                    exact hRfree (hkey' ▸ hRS x hx)
                  · intro e he
                    rcases List.mem_append.mp he with he | he
                    · exact GA.mem_sadd.mpr (Or.inl (hTS e he))
                    · rw [List.mem_singleton.mp he]
                      exact GA.mem_sadd.mpr (Or.inr rfl)
                  · intro e he
                    rcases List.mem_append.mp he with he | he
                    · exact GA.mem_sadd.mpr (Or.inl (hRS e he))
                    · rw [List.mem_singleton.mp he]
                      exact GA.mem_sadd.mpr (Or.inr rfl)
                  · intro e he
                    rcases List.mem_append.mp he with he | he
                    · exact hLink e he
                    · rw [List.mem_singleton.mp he]
                      exact ⟨slot, hslot, rfl, rfl, rfl⟩
                · exact placeDemand_sum hpd

lemma tryPlaceSlots_spec {inp : EngineInput} {course : Course}
    {sec day : String} :
    ∀ {slots : List TimeSlot} {hs : HybState} {ss : SectState}
      {hs' : HybState} {ss' : SectState},
      (∀ s ∈ slots, s ∈ inp.timeSlots) →
      tryPlaceSlots inp course sec day hs ss slots = some (hs', ss') →
      (HybInv inp hs → HybInv inp hs') ∧ sumRem ss' + 1 = sumRem ss := by
  intro slots
  induction slots with
  | nil => intro hs ss hs' ss' _ h; simp [tryPlaceSlots] at h
  | cons slot rest ih =>
      intro hs ss hs' ss' hmem h
      unfold tryPlaceSlots at h
      cases ha : attemptSlot inp course sec day hs ss slot with
      | hardFail => rw [ha] at h; exact absurd h (by simp)
      | slotFail =>
          rw [ha] at h
          exact ih (fun s hsm => hmem s (List.mem_cons_of_mem slot hsm)) h
      | placed hs1 ss1 =>
          rw [ha] at h
          obtain ⟨rfl, rfl⟩ : hs1 = hs' ∧ ss1 = ss' := by
            simpa using h
          exact attemptSlot_placed_spec
            (hmem slot (List.mem_cons_self slot rest)) ha

/-- Membership hypothesis shared by the loop lemmas: every bucket of the
day-to-slots map consists of input time slots. -/
def DtsOk (inp : EngineInput) (dts : List (String × List TimeSlot)) : Prop :=
  ∀ day l, mget dts day = some l → ∀ s ∈ l, s ∈ inp.timeSlots

lemma daySlots_mem {inp : EngineInput} {dts : List (String × List TimeSlot)}
    (hdts : DtsOk inp dts) (day : String) :
    ∀ s ∈ (mget dts day).getD [], s ∈ inp.timeSlots := by
  cases hm : mget dts day with
  | none => simp
  | some l => simpa using hdts day l hm

lemma dayFold_spec {inp : EngineInput} {course : Course} {sec : String}
    {dts : List (String × List TimeSlot)} (hdts : DtsOk inp dts) :
    ∀ {days : List String} {hs : HybState} {ss : SectState} {p : Bool}
      {hs' : HybState} {ss' : SectState} {p' : Bool},
      dayFold inp course sec dts days hs ss p = (hs', ss', p') →
      (HybInv inp hs → HybInv inp hs') ∧ sumRem ss' ≤ sumRem ss ∧
        (p' = true → p = true ∨ sumRem ss' < sumRem ss) := by
  intro days
  induction days with
  | nil =>
      intro hs ss p hs' ss' p' h
      obtain ⟨rfl, rfl, rfl⟩ : hs = hs' ∧ ss = ss' ∧ p = p' := by
        simpa [dayFold, Prod.ext_iff] using h
      exact ⟨id, le_refl _, fun hp => Or.inl hp⟩
  | cons day rest ih =>
      intro hs ss p hs' ss' p' h
      unfold dayFold at h
      by_cases h0 : sumRem ss = 0
      · rw [if_pos h0] at h
        obtain ⟨rfl, rfl, rfl⟩ : hs = hs' ∧ ss = ss' ∧ p = p' := by
          simpa [Prod.ext_iff] using h
        exact ⟨id, le_refl _, fun hp => Or.inl hp⟩
      · rw [if_neg h0] at h
        cases htp : tryPlaceSlots inp course sec day hs ss
            ((mget dts day).getD []) with
        | none =>
            rw [htp] at h
            exact ih h
        | some pr =>
            obtain ⟨hs1, ss1⟩ := pr
            rw [htp] at h
            have hstep := tryPlaceSlots_spec (daySlots_mem hdts day) htp
            have hrest := ih h
            refine ⟨fun hinv => hrest.1 (hstep.1 hinv), ?_, ?_⟩
            · omega
            · intro _
              right
              omega

lemma pass1Fuel_inv (inp : EngineInput) (course : Course) (sec : String)
    (dts : List (String × List TimeSlot)) (rotDays : List String)
    (hdts : DtsOk inp dts) :
    ∀ (n : Nat) (hs : HybState) (ss : SectState), HybInv inp hs →
      HybInv inp (pass1Fuel inp course sec dts rotDays n hs ss).1
  | 0, _, _, h => h
  | Nat.succ n, hs, ss, h => by
      unfold pass1Fuel
      by_cases h0 : 0 < sumRem ss
      · rw [if_pos h0]
        rcases hdf : dayFold inp course sec dts rotDays hs ss false with
          ⟨hs1, ss1, placed⟩
        have hinv1 := (dayFold_spec hdts hdf).1 h
        cases placed with
        | true => exact pass1Fuel_inv inp course sec dts rotDays hdts n hs1 ss1 hinv1
        | false => exact hinv1
      · rw [if_neg h0]
        exact h

/-- Fuel irrelevance of the pass-1 loop: any fuel strictly above the
remaining demand computes the loop's true fixpoint, because every
continuing iteration places at least one class. -/
lemma pass1Fuel_congr {inp : EngineInput} {course : Course} {sec : String}
    {dts : List (String × List TimeSlot)} {rotDays : List String}
    (hdts : DtsOk inp dts) :
    ∀ (n m : Nat) (hs : HybState) (ss : SectState),
      sumRem ss < n → sumRem ss < m →
      pass1Fuel inp course sec dts rotDays n hs ss =
        pass1Fuel inp course sec dts rotDays m hs ss
  | 0, _, _, ss, hn, _ => absurd hn (Nat.not_lt_zero _)
  | _ + 1, 0, _, ss, _, hm => absurd hm (Nat.not_lt_zero _)
  | n + 1, m + 1, hs, ss, hn, hm => by
      unfold pass1Fuel
      by_cases h0 : 0 < sumRem ss
      · rw [if_pos h0, if_pos h0]
        rcases hdf : dayFold inp course sec dts rotDays hs ss false with
          ⟨hs1, ss1, placed⟩
        cases placed with
        | true =>
            have hlt : sumRem ss1 < sumRem ss := by
              rcases (dayFold_spec hdts hdf).2.2 rfl with hfalse | hlt
              · exact absurd hfalse (by simp)
              · exact hlt
            exact pass1Fuel_congr hdts n m hs1 ss1 (by omega) (by omega)
        | false => rfl
      · rw [if_neg h0, if_neg h0]

lemma pass2Day_inv {inp : EngineInput} {course : Course} {sec : String}
    {dts : List (String × List TimeSlot)} {day : String}
    (hdts : DtsOk inp dts) :
    ∀ (n : Nat) (hs : HybState) (ss : SectState), HybInv inp hs →
      HybInv inp (pass2Day inp course sec dts day n hs ss).1
  | 0, _, _, h => h
  | Nat.succ n, hs, ss, h => by
      unfold pass2Day
      by_cases hd : ss.demand.any (fun d => 0 < d.remaining)
      · rw [if_pos hd]
        cases htp : tryPlaceSlots inp course sec day hs ss
            ((mget dts day).getD []) with
        | none => exact h
        | some pr =>
            obtain ⟨hs1, ss1⟩ := pr
            exact pass2Day_inv hdts n hs1 ss1
              ((tryPlaceSlots_spec (daySlots_mem hdts day) htp).1 h)
      · rw [if_neg hd]
        exact h

lemma pass2_inv {inp : EngineInput} {course : Course} {sec : String}
    {dts : List (String × List TimeSlot)} {rotDays : List String}
    (hdts : DtsOk inp dts) (hs : HybState) (ss : SectState)
    (h : HybInv inp hs) :
    HybInv inp (pass2 inp course sec dts rotDays hs ss).1 := by
  unfold pass2
  exact foldl_preserve (fun p => HybInv inp p.1)
    (fun p day => pass2Day inp course sec dts day 3 p.1 p.2)
    (fun p day hp => pass2Day_inv hdts 3 p.1 p.2 hp) rotDays (hs, ss) h

lemma processSection_inv {inp : EngineInput} {course : Course}
    {dts : List (String × List TimeSlot)} {subs : List Subject}
    (hdts : DtsOk inp dts) (hs : HybState) (sec : String)
    (h : HybInv inp hs) :
    HybInv inp (processSection inp dts course subs hs sec) := by
  unfold processSection
  rcases hp1 : pass1 inp course sec dts (rotDaysOf course sec) hs
      ⟨initDemand subs, []⟩ with ⟨hs1, ss1⟩
  have hinv1 : HybInv inp hs1 := by
    have hfe : pass1Fuel inp course sec dts (rotDaysOf course sec)
        (sumRem ⟨initDemand subs, []⟩ + 1) hs ⟨initDemand subs, []⟩ =
        (hs1, ss1) := hp1
    have := pass1Fuel_inv inp course sec dts (rotDaysOf course sec) hdts
      (sumRem ⟨initDemand subs, []⟩ + 1) hs ⟨initDemand subs, []⟩ h
    rw [hfe] at this
    exact this
  by_cases hrem : 0 < sumRem ss1
  · simpa [hrem] using pass2_inv hdts hs1 ss1 hinv1
  · simpa [hrem] using hinv1

lemma courseStep_inv {inp : EngineInput}
    {dts : List (String × List TimeSlot)}
    {cmap : List (String × List Subject)} (hdts : DtsOk inp dts)
    (hs : HybState) (course : Course) (h : HybInv inp hs) :
    HybInv inp (courseStep inp dts cmap hs course) := by
  unfold courseStep
  by_cases hsubs : (mget cmap course.id).getD [] = []
  · rw [if_pos hsubs]
    exact h
  · rw [if_neg hsubs]
    exact foldl_preserve (HybInv inp)
      (processSection inp dts course ((mget cmap course.id).getD []))
      (fun s b hp => processSection_inv hdts s b hp) _ hs h

lemma buildState_dtsOk (inp : EngineInput) :
    DtsOk inp (dayToSlots inp.timeSlots) :=
  fun _ _ h => dayToSlots_mem h

lemma buildState_inv (inp : EngineInput) : HybInv inp (buildState inp) := by
  unfold buildState
  by_cases hg : inp.subjects ≠ [] ∧ inp.timeSlots ≠ []
  · rw [if_pos hg]
    exact foldl_preserve (HybInv inp)
      (courseStep inp (dayToSlots inp.timeSlots) (courseIdToSubjects inp))
      (fun s b hp => courseStep_inv (buildState_dtsOk inp) s b hp)
      inp.courses ⟨[], [], [], []⟩
      ⟨List.nodup_nil, List.nodup_nil, by simp, by simp, by simp⟩
  · rw [if_neg hg]
    exact ⟨List.nodup_nil, List.nodup_nil, by simp, by simp, by simp⟩

lemma optimize_ok {inp : EngineInput} {r : OptimizationResult}
    (h : optimize inp = Except.ok r) :
    r =
      { schedule := buildSchedule inp
        fitness := 750
        conflicts := []
        metrics := ⟨0, 80, 90, 85, 95⟩
        generationData :=
          [⟨0, 500, 400, 300⟩, ⟨50, 650, 550, 450⟩, ⟨100, 750, 650, 550⟩] } := by
  unfold optimize at h
  by_cases hg : inp.courses = [] ∨ inp.teachers = [] ∨ inp.rooms = []
  · rw [if_pos hg] at h
    exact absurd h (by simp)
  · rw [if_neg hg] at h
    simpa using h.symm

end Hybrid

/-- C1: `optimize` fails with the input-validation error exactly when the
course, teacher, or room collection is empty — before any schedule
construction, with no partial result — and succeeds otherwise. -/
theorem claim_C1_input_validation (inp : EngineInput) :
    ((inp.courses = [] ∨ inp.teachers = [] ∨ inp.rooms = []) →
      Hybrid.optimize inp =
        Except.error ("Missing required data: courses, teachers, or rooms")) ∧
    (inp.courses ≠ [] → inp.teachers ≠ [] → inp.rooms ≠ [] →
      ∃ r, Hybrid.optimize inp = Except.ok r) := by
  constructor
  · intro h
    unfold Hybrid.optimize
    rw [if_pos h]
  · intro h1 h2 h3
    unfold Hybrid.optimize
    rw [if_neg (by simp [h1, h2, h3])]
    exact ⟨_, rfl⟩

/-- C1 witness: the validation theorem applied at a concrete empty input
and a concrete fully-populated input. -/
theorem claim_C1_input_validation_witness :
    Hybrid.optimize c1empty =
      Except.error ("Missing required data: courses, teachers, or rooms") ∧
    ∃ r, Hybrid.optimize c1full = Except.ok r :=
  ⟨(claim_C1_input_validation c1empty).1 (by simp [c1empty]),
   (claim_C1_input_validation c1full).2 (by simp [c1full]) (by simp [c1full])
     (by simp [c1full])⟩

/-- C2 amended: the schedule returned by `optimize` never reuses a
(teacher, time-slot) or (room, time-slot) pair; hence, whenever no two
distinct input time slots share the same (day, start-time), no two returned
assignments share (room, day, start-time) and none share
(teacher, day, start-time).  The returned conflicts list is always empty
(so a violation occurring under duplicate-time slots is not reflected as a
conflict — see the counterexample). -/
theorem claim_C2_no_double_booking (inp : EngineInput)
    (r : OptimizationResult) (h : Hybrid.optimize inp = Except.ok r)
    (hinj : ∀ s1 ∈ inp.timeSlots, ∀ s2 ∈ inp.timeSlots,
      s1.day = s2.day → s1.startTime = s2.startTime → s1.id = s2.id) :
    List.Pairwise (fun a b : ClassSchedule =>
      ¬(a.roomId = b.roomId ∧ a.day = b.day ∧ a.startTime = b.startTime))
      r.schedule ∧
    List.Pairwise (fun a b : ClassSchedule =>
      ¬(a.teacherId = b.teacherId ∧ a.day = b.day ∧ a.startTime = b.startTime))
      r.schedule ∧
    r.conflicts = [] := by
  have hres := Hybrid.optimize_ok h
  subst hres
  obtain ⟨hTN, hRN, _, _, hLink⟩ := Hybrid.buildState_inv inp
  have hlink : ∀ e ∈ Hybrid.buildSchedule inp, ∃ ts ∈ inp.timeSlots,
      e.timeSlotId = ts.id ∧ e.day = ts.day ∧ e.startTime = ts.startTime :=
    hLink
  have hTP : List.Pairwise (fun a b : ClassSchedule =>
      (a.teacherId, a.timeSlotId) ≠ (b.teacherId, b.timeSlotId))
      (Hybrid.buildSchedule inp) := by
    have := hTN
    rw [List.Nodup, List.pairwise_map] at this
    exact this
  have hRP : List.Pairwise (fun a b : ClassSchedule =>
      (a.roomId, a.timeSlotId) ≠ (b.roomId, b.timeSlotId))
      (Hybrid.buildSchedule inp) := by
    have := hRN
    rw [List.Nodup, List.pairwise_map] at this
    exact this
  have hsameSlot : ∀ a ∈ Hybrid.buildSchedule inp,
      ∀ b ∈ Hybrid.buildSchedule inp,
      a.day = b.day → a.startTime = b.startTime →
      a.timeSlotId = b.timeSlotId := by
    intro a ha b hb hday hstart
    obtain ⟨ta, hta, ha1, ha2, ha3⟩ := hlink a ha
    obtain ⟨tb, htb, hb1, hb2, hb3⟩ := hlink b hb
    rw [ha1, hb1]
    exact hinj ta hta tb htb (by rw [← ha2, ← hb2, hday])
      (by rw [← ha3, ← hb3, hstart])
  refine ⟨?_, ?_, rfl⟩
  · refine List.Pairwise.imp_of_mem ?_ hRP
    intro a b ha hb hne ⟨hroom, hday, hstart⟩
    exact hne (by rw [hroom, hsameSlot a ha b hb hday hstart])
  · refine List.Pairwise.imp_of_mem ?_ hTP
    intro a b ha hb hne ⟨hteach, hday, hstart⟩
    exact hne (by rw [hteach, hsameSlot a ha b hb hday hstart])

/-- C2 counterexample: with two distinct time slots sharing Monday 09:00,
`optimize` returns a schedule whose two assignments share both
(room, day, start-time) and (teacher, day, start-time), yet the returned
conflicts list is empty — the claimed invariant and its reflection as
high-severity conflicts both fail. -/
theorem claim_C2_counterexample :
    Hybrid.optimize c2xinp = Except.ok c2xres ∧
    c2xres.schedule = [c2xa, c2xb] ∧
    ¬ List.Pairwise (fun a b : ClassSchedule =>
      ¬(a.roomId = b.roomId ∧ a.day = b.day ∧ a.startTime = b.startTime))
      c2xres.schedule ∧
    ¬ List.Pairwise (fun a b : ClassSchedule =>
      ¬(a.teacherId = b.teacherId ∧ a.day = b.day ∧ a.startTime = b.startTime))
      c2xres.schedule ∧
    c2xres.conflicts = [] := by
  refine ⟨rfl, rfl, ?_, ?_, rfl⟩
  · intro h
    rw [show c2xres.schedule = [c2xa, c2xb] from rfl] at h
    exact (List.pairwise_cons.mp h).1 c2xb (List.mem_cons_self _ _)
      ⟨rfl, rfl, rfl⟩
  · intro h
    rw [show c2xres.schedule = [c2xa, c2xb] from rfl] at h
    exact (List.pairwise_cons.mp h).1 c2xb (List.mem_cons_self _ _)
      ⟨rfl, rfl, rfl⟩

/-- C2 witness: the amended theorem applied at a concrete input whose time
slots have pairwise-distinct (day, start-time) pairs. -/
theorem claim_C2_no_double_booking_witness :
    List.Pairwise (fun a b : ClassSchedule =>
      ¬(a.roomId = b.roomId ∧ a.day = b.day ∧ a.startTime = b.startTime))
      c2wres.schedule ∧
    List.Pairwise (fun a b : ClassSchedule =>
      ¬(a.teacherId = b.teacherId ∧ a.day = b.day ∧ a.startTime = b.startTime))
      c2wres.schedule ∧
    c2wres.conflicts = [] :=
  claim_C2_no_double_booking c2winp c2wres rfl (by decide)

/-- C3: for every input with non-empty courses, teachers and rooms,
`optimize` succeeds with fitness exactly 750, an empty conflicts list, the
constant metrics (roomUtilization 80, teacherWorkloadBalance 90,
studentSatisfaction 85, constraintSatisfaction 95, totalConflicts 0) and the
fixed three-entry generation history for generations 0, 50 and 100 —
independent of the schedule constructed. -/
theorem claim_C3_constant_result (inp : EngineInput)
    (h1 : inp.courses ≠ []) (h2 : inp.teachers ≠ []) (h3 : inp.rooms ≠ []) :
    ∃ sched, Hybrid.optimize inp =
      Except.ok
        { schedule := sched
          fitness := 750
          conflicts := []
          metrics :=
            { totalConflicts := 0
              roomUtilization := 80
              teacherWorkloadBalance := 90
              studentSatisfaction := 85
              constraintSatisfaction := 95 }
          generationData :=
            [⟨0, 500, 400, 300⟩, ⟨50, 650, 550, 450⟩,
             ⟨100, 750, 650, 550⟩] } := by
  unfold Hybrid.optimize
  rw [if_neg (by simp [h1, h2, h3])]
  exact ⟨_, rfl⟩

/-- C3 witness: the constant-result theorem applied at a concrete input. -/
theorem claim_C3_constant_result_witness :
    ∃ sched, Hybrid.optimize c3winp =
      Except.ok
        { schedule := sched
          fitness := 750
          conflicts := []
          metrics :=
            { totalConflicts := 0
              roomUtilization := 80
              teacherWorkloadBalance := 90
              studentSatisfaction := 85
              constraintSatisfaction := 95 }
          generationData :=
            [⟨0, 500, 400, 300⟩, ⟨50, 650, 550, 450⟩,
             ⟨100, 750, 650, 550⟩] } :=
  claim_C3_constant_result c3winp (by simp [c3winp]) (by simp [c3winp])
    (by simp [c3winp])

/-- C5 amended: `repairSchedule` is idempotent on every schedule whose
classes all have positive duration, provided every configured time slot also
has positive duration (the counterexample shows idempotence fails when a
zero-length time slot lets a relocated class land on an already-used
(teacher, room, day, start) key without a detected overlap). -/
theorem claim_C5_repair_idempotent (inp : EngineInput)
    (S : List ClassSchedule)
    (hS : ∀ c ∈ S, c.startTime < c.endTime)
    (hslots : ∀ ts ∈ inp.timeSlots, ts.startTime < ts.endTime) :
    GA.repairSchedule inp (GA.repairSchedule inp S) =
      GA.repairSchedule inp S := by
  have hinv : GA.RepairInv (S.foldl (GA.repairStep inp) ⟨[], []⟩) :=
    GA.foldl_repairStep_inv inp hslots S ⟨[], []⟩ hS
      ⟨List.Pairwise.nil, List.nodup_nil, by simp, by simp⟩
  show ((GA.repairSchedule inp S).foldl (GA.repairStep inp) ⟨[], []⟩).kept =
    GA.repairSchedule inp S
  have := GA.foldl_repairStep_fixed inp (GA.repairSchedule inp S) []
    ⟨[], []⟩ rfl (by simp) (by simpa using hinv.1) (by simpa using hinv.2.1)
  simpa using this

/-- C5 counterexample: repair is not idempotent as claimed — on `[c5a, c5b]`
the clashing class is relocated onto the zero-length slot, which reuses the
(teacher, room, day, start) key of the first class without any detected
overlap, and the second repair pass then drops it. -/
theorem claim_C5_counterexample :
    GA.repairSchedule c5inp (GA.repairSchedule c5inp [c5a, c5b]) ≠
      GA.repairSchedule c5inp [c5a, c5b] := by decide

/-- C5 witness: the amended idempotence theorem applied at a concrete
positive-duration input. -/
theorem claim_C5_repair_idempotent_witness :
    GA.repairSchedule c5winp (GA.repairSchedule c5winp [c5a, c5b]) =
      GA.repairSchedule c5winp [c5a, c5b] :=
  claim_C5_repair_idempotent c5winp [c5a, c5b] (by decide) (by decide)

/-- C6: repair restores conflict-freedom — for every input schedule,
`detectConflicts` applied to `repairSchedule(S)` returns the empty list. -/
theorem claim_C6_repair_conflict_free (inp : EngineInput)
    (S : List ClassSchedule) :
    GA.detectConflicts (GA.repairSchedule inp S) = [] := by
  rw [GA.detectConflicts_eq_nil]
  exact GA.foldl_repairStep_pairwise inp S ⟨[], []⟩ (List.Pairwise.nil)

/-- C7 (code bug): elitism is not preserved verbatim.  `runGeneticEvolution`
pushes the elite `Individual` objects into the next population by reference,
then mutates tournament-selected parents; `mutate` copies only the schedule
*array* while the mutation operators assign fields of the shared
`ClassSchedule` *objects* in place.  Here the single store object referenced
by the elite (`c7elite.schedule = [0]`) is retimed in place by the mutation
loop applied to an individual aliasing it, so the elite's observed schedule
changes even though its reference list is untouched. -/
theorem claim_C7_mutation_corrupts_elites :
    (GA.mutatePhaseH c7inp (1/10) [c7class] c7elite c7rng).1 =
      [⟨"a", "c", none, none, none, "t", "r", "T2", "Tuesday", 600, 660⟩] ∧
    GA.derefSchedule ((GA.mutatePhaseH c7inp (1/10) [c7class] c7elite c7rng).1)
        c7elite ≠
      GA.derefSchedule [c7class] c7elite := by
  have h1 : GA.calculateAdaptiveMutationRate 1000 (1/10) = 1/10 := by
    unfold GA.calculateAdaptiveMutationRate; norm_num
  have h2 : GA.randIndex 0 1 = 0 := by
    unfold GA.randIndex; norm_num
  constructor
  · norm_num [GA.mutatePhaseH, GA.mutatePhaseAux, GA.mutateStepH, GA.draw, h1,
      h2, GA.mutateTimeSlotH, c7elite, c7rng, c7class, c7inp, c7teacher,
      GA.teacherAvailableOn]
  · norm_num [GA.mutatePhaseH, GA.mutatePhaseAux, GA.mutateStepH, GA.draw, h1,
      h2, GA.mutateTimeSlotH, c7elite, c7rng, c7class, c7inp, c7teacher,
      GA.teacherAvailableOn, GA.derefSchedule]
    decide

/-- C8 (code bug): the stagnation counter increments in every generation
after the first, even while the best fitness strictly improves (here
100 → 150 → 200), because `lastBestFitness` is assigned
`bestIndividual.fitness` at the end of every generation, making the check
`bestIndividual.fitness <= lastBestFitness` vacuously true; the claimed
reset to zero on improvement never happens after generation 0. -/
theorem claim_C8_stagnation_counter_bug :
    (Hybrid.runEvoBook 1 100 [150, 200]).stagnation = 1 ∧
    (100 : ℚ) < 150 ∧ (150 : ℚ) < 200 := by
  refine ⟨?_, by norm_num, by norm_num⟩
  norm_num [Hybrid.runEvoBook, Hybrid.runEvoAux, Hybrid.evoStep]

/-- Folding subtraction over a list equals subtracting the mapped sum. -/
lemma foldl_sub_eq {α : Type} (pen : α → ℚ) (l : List α) (init : ℚ) :
    l.foldl (fun f c => f - pen c) init = init - (l.map pen).sum := by
  induction l generalizing init with
  | nil => simp
  | cons a t ih => simp [List.foldl_cons, ih]; ring

/-- C4: `calculateFitness(S)` equals 1000 minus the summed conflict
penalties (100 per high, 30 per medium, 10 per low severity conflict), plus
80 × workload balance, plus 60 × average room utilization, plus
40 × time-distribution evenness, plus 100 × constraint-satisfaction ratio,
minus 20 × gap penalty, plus 150 × coverage ratio, clamped to a minimum
of 0. -/
theorem claim_C4_fitness_formula (inp : EngineInput) (S : List ClassSchedule) :
    GA.calculateFitness inp S =
      max (1000
        - ((GA.detectConflicts S).map (fun c => GA.severityPenalty c.severity)).sum
        + 80 * GA.calculateWorkloadBalance S
        + 60 * GA.calculateRoomUtilization inp S
        + 40 * GA.calculateTimeDistribution S
        + 100 * GA.calculateConstraintSatisfaction inp S
        - 20 * (GA.calculateGapPenalty inp S : ℚ)
        + 150 * GA.calculateCoverage inp S) 0 := by
  simp only [GA.calculateFitness]
  rw [foldl_sub_eq]
  congr 1
  ring

namespace CPSAT

lemma find_eq_of_nodup {vars : List CPVariable}
    (hnd : (vars.map (fun v => v.id)).Nodup) {v : CPVariable} (hv : v ∈ vars) :
    lookupVar vars v.id = some v := by
  induction vars with
  | nil => simp at hv
  | cons w rest ih =>
      rw [List.map_cons, List.nodup_cons] at hnd
      rcases List.mem_cons.mp hv with rfl | hv
      · unfold lookupVar
        rw [List.find?_cons_of_pos]
        simp
      · have hne : w.id ≠ v.id := by
          intro he
          exact hnd.1 (he ▸ List.mem_map.mpr ⟨v, hv, rfl⟩)
        unfold lookupVar
        rw [List.find?_cons_of_neg]
        · exact ih hnd.2 hv
        · simp [hne]

lemma isActive_of_mem_domain {vars : List CPVariable}
    (hnd : (vars.map (fun v => v.id)).Nodup) {v : CPVariable} (hv : v ∈ vars)
    (hd : v.domain = true) : isActive vars v.id = true := by
  unfold isActive
  rw [find_eq_of_nodup hnd hv]
  simp [hd]

lemma filter_domain_map {vars : List CPVariable} {f : CPVariable → CPVariable}
    (h : ∀ v ∈ vars, (v.domain = true → f v = v) ∧
      ((f v).domain = true → v.domain = true)) :
    (vars.map f).filter (fun v => v.domain) =
      vars.filter (fun v => v.domain) := by
  induction vars with
  | nil => simp
  | cons v rest ih =>
      have hv := h v (List.mem_cons_self v rest)
      have hrest := ih (fun x hx => h x (List.mem_cons_of_mem v hx))
      by_cases hd : v.domain = true
      · rw [List.map_cons, hv.1 hd, List.filter_cons, List.filter_cons, if_pos,
          if_pos, hrest]
        · simpa using hd
        · simpa using hd
      · have hfd : ¬ ((f v).domain = true) := fun hc => hd (hv.2 hc)
        rw [List.map_cons, List.filter_cons, List.filter_cons, if_neg,
          if_neg, hrest]
        · simpa using hd
        · simpa using hfd

lemma disableVar_ids {vars : List CPVariable} {vid : String} :
    (disableVar vars vid).map (fun v => v.id) = vars.map (fun v => v.id) := by
  unfold disableVar
  induction vars with
  | nil => simp
  | cons v rest ih =>
      by_cases hid : v.id = vid
      · simp [hid, ih]
      · simp [hid, ih]

lemma disableVar_filter {vars : List CPVariable} {vid : String}
    (hno : ∀ v ∈ vars, v.id = vid → v.domain = false) :
    (disableVar vars vid).filter (fun v => v.domain) =
      vars.filter (fun v => v.domain) := by
  refine filter_domain_map (fun v hv => ⟨fun hd => ?_, fun hfd => ?_⟩)
  · have hid : ¬ v.id = vid := fun he => by
      rw [hno v hv he] at hd
      exact Bool.false_ne_true hd
    simp [hid]
  · by_cases hid : v.id = vid
    · rw [if_pos hid] at hfd
      simp at hfd
    · rw [if_neg hid] at hfd
      exact hfd

lemma foldl_disable_filter {vars : List CPVariable} {a0 : String} :
    ∀ (vids : List String) (p : List CPVariable × Bool),
      (∀ vid ∈ vids, vid ≠ a0 → isActive vars vid = false) →
      p.1.filter (fun v => v.domain) = vars.filter (fun v => v.domain) →
      p.1.map (fun v => v.id) = vars.map (fun v => v.id) →
      (vars.map (fun v => v.id)).Nodup →
      (vids.foldl (fun (p : List CPVariable × Bool) vid =>
          if vid ≠ a0 ∧ (lookupVar p.1 vid).isSome then (disableVar p.1 vid, true)
          else p) p).1.filter (fun v => v.domain) =
        vars.filter (fun v => v.domain) ∧
      (vids.foldl (fun (p : List CPVariable × Bool) vid =>
          if vid ≠ a0 ∧ (lookupVar p.1 vid).isSome then (disableVar p.1 vid, true)
          else p) p).1.map (fun v => v.id) = vars.map (fun v => v.id)
  | [], p, _, h1, h2, _ => ⟨h1, h2⟩
  | vid :: vrest, p, hA, h1, h2, hnd => by
      rw [List.foldl_cons]
      have hA' : ∀ v ∈ vrest, v ≠ a0 → isActive vars v = false :=
        fun v hv => hA v (List.mem_cons_of_mem vid hv)
      by_cases hc : vid ≠ a0 ∧ (lookupVar p.1 vid).isSome
      · rw [if_pos hc]
        have hno : ∀ v ∈ p.1, v.id = vid → v.domain = false := by
          intro v hv hvid
          by_cases hd : v.domain = true
          · have hvf : v ∈ vars.filter (fun v => v.domain) := by
              rw [← h1]
              exact List.mem_filter.mpr ⟨hv, by simpa using hd⟩
            have hvv : v ∈ vars := List.mem_of_mem_filter hvf
            have := isActive_of_mem_domain hnd hvv hd
            rw [hvid] at this
            rw [hA vid (List.mem_cons_self vid vrest) hc.1] at this
            exact absurd this (by simp)
          · simpa using hd
        exact foldl_disable_filter vrest (disableVar p.1 vid, true) hA'
          (by rw [disableVar_filter hno, h1])
          (by rw [disableVar_ids, h2]) hnd
      · rw [if_neg hc]
        exact foldl_disable_filter vrest p hA' h1 h2 hnd

lemma propagateConstraint_filter {vars : List CPVariable} {c : CPConstraint}
    (hnd : (vars.map (fun v => v.id)).Nodup) :
    (propagateConstraint vars c).2.1.filter (fun v => v.domain) =
      vars.filter (fun v => v.domain) ∧
    (propagateConstraint vars c).2.1.map (fun v => v.id) =
      vars.map (fun v => v.id) := by
  unfold propagateConstraint
  by_cases hct : c.ctype = CType.resource_conflict
  · rw [if_pos hct]
    cases hAct : activeIds vars c.varIds with
    | nil => exact ⟨rfl, rfl⟩
    | cons a0 arest =>
        cases arest with
        | cons b brest => exact ⟨rfl, rfl⟩
        | nil =>
            have hA : ∀ vid ∈ c.varIds, vid ≠ a0 → isActive vars vid = false := by
              intro vid hmem hne
              by_cases hact : isActive vars vid = true
              · have : vid ∈ activeIds vars c.varIds :=
                  List.mem_filter.mpr ⟨hmem, by simpa using hact⟩
                rw [hAct] at this
                exact absurd (List.mem_singleton.mp this) hne
              · simpa using hact
            exact foldl_disable_filter c.varIds (vars, false) hA rfl rfl hnd
  · rw [if_neg hct]
    exact ⟨rfl, rfl⟩

lemma consFold_filter {vars0 : List CPVariable} :
    ∀ (cs : List CPConstraint) (acc : List CPConstraint)
      (vars : List CPVariable) (ch : Bool),
      vars.filter (fun v => v.domain) = vars0.filter (fun v => v.domain) →
      vars.map (fun v => v.id) = vars0.map (fun v => v.id) →
      (vars0.map (fun v => v.id)).Nodup →
      (cs.foldl (fun (acc : List CPConstraint × List CPVariable × Bool) c =>
          let r := propagateConstraint acc.2.1 c
          (acc.1 ++ [r.1], r.2.1, acc.2.2 || r.2.2)) (acc, vars, ch)).2.1.filter
        (fun v => v.domain) = vars0.filter (fun v => v.domain) ∧
      (cs.foldl (fun (acc : List CPConstraint × List CPVariable × Bool) c =>
          let r := propagateConstraint acc.2.1 c
          (acc.1 ++ [r.1], r.2.1, acc.2.2 || r.2.2)) (acc, vars, ch)).2.1.map
        (fun v => v.id) = vars0.map (fun v => v.id)
  | [], _, _, _, h1, h2, _ => ⟨h1, h2⟩
  | c :: cs, acc, vars, ch, h1, h2, hnd => by
      rw [List.foldl_cons]
      have hstep := @propagateConstraint_filter vars c (by rw [h2]; exact hnd)
      exact consFold_filter cs (acc ++ [(propagateConstraint vars c).1])
        (propagateConstraint vars c).2.1
        (ch || (propagateConstraint vars c).2.2)
        (by rw [hstep.1, h1]) (by rw [hstep.2, h2]) hnd

lemma filter_domain_idem (l : List CPVariable) :
    (l.filter (fun v => v.domain)).filter (fun v => v.domain) =
      l.filter (fun v => v.domain) :=
  List.filter_eq_self.mpr (fun _ ha => List.of_mem_filter ha)

lemma propRound_vars {st : CPState}
    (hnd : (st.vars.map (fun v => v.id)).Nodup) :
    (propRound st).1.vars = st.vars.filter (fun v => v.domain) ∧
    ((propRound st).1.vars.map (fun v => v.id)).Nodup := by
  have hfold := @consFold_filter st.vars st.cons [] st.vars false rfl rfl hnd
  constructor
  · show (_ : List CPVariable).filter (fun v => v.domain) = _
    exact hfold.1
  · refine List.Nodup.sublist ?_ hnd
    rw [← hfold.2]
    exact List.Sublist.map (fun v : CPVariable => v.id) (List.filter_sublist _)

lemma propagationGo_filter :
    ∀ (n : Nat) (st : CPState), (st.vars.map (fun v => v.id)).Nodup →
      (propagationGo n st).vars.filter (fun v => v.domain) =
        st.vars.filter (fun v => v.domain)
  | 0, _, _ => rfl
  | Nat.succ n, st, hnd => by
      unfold propagationGo
      rcases hpr : propRound st with ⟨st', ch⟩
      have hvars := propRound_vars hnd
      rw [hpr] at hvars
      have h1 : st'.vars = st.vars.filter (fun v => v.domain) := hvars.1
      have h2 : ((st'.vars).map (fun v => v.id)).Nodup := hvars.2
      cases ch with
      | true =>
          have hrec := propagationGo_filter n st' h2
          show (propagationGo n st').vars.filter (fun v => v.domain) =
            st.vars.filter (fun v => v.domain)
          rw [hrec, h1, filter_domain_idem]
      | false =>
          show st'.vars.filter (fun v => v.domain) =
            st.vars.filter (fun v => v.domain)
          rw [h1, filter_domain_idem]

end CPSAT

/-- C10 amended: constraint propagation never chooses between competing
still-candidate variables — for every solver state (with well-formed,
duplicate-free variable ids, as produced by `initializeVariables`), the set
of variables with domain `true` is exactly the same after
`constraintPropagation` as before; the propagator only marks constraints
whose group already has a single candidate as satisfied, re-disables and
deletes non-candidates, and leaves the choice among competitors to the
backtracking search. -/
theorem claim_C10_propagation_preserves_candidates (st : CPSAT.CPState)
    (hnd : (st.vars.map (fun v => v.id)).Nodup) :
    (CPSAT.constraintPropagation st).vars.filter (fun v => v.domain) =
      st.vars.filter (fun v => v.domain) :=
  CPSAT.propagationGo_filter 100 st hnd

/-- C10 counterexample: on an input where two subjects compete for the one
feasible slot (sharing the teacher-conflict resource group over it), both
variables still have domain `true` after `constraintPropagation` — the
claimed selection of exactly one of the two does not happen. -/
theorem claim_C10_counterexample :
    ({ id := "teacher_conflict_t_T1"
       ctype := CPSAT.CType.resource_conflict
       varIds := ["c_s1_A_t_r_T1", "c_s2_A_t_r_T1"]
       satisfied := false } : CPSAT.CPConstraint) ∈
      (CPSAT.initState c10inp).cons ∧
    ((CPSAT.constraintPropagation (CPSAT.initState c10inp)).vars.filter
        (fun v => v.domain)).map (fun v => v.id) =
      ["c_s1_A_t_r_T1", "c_s2_A_t_r_T1"] ∧
    ¬ ((CPSAT.constraintPropagation (CPSAT.initState c10inp)).vars.filter
        (fun v => v.domain)).length = 1 :=
  ⟨by decide, rfl, by decide⟩

/-- C10 witness: the amended preservation theorem applied at the concrete
two-competitor state. -/
theorem claim_C10_propagation_preserves_candidates_witness :
    (CPSAT.constraintPropagation (CPSAT.initState c10inp)).vars.filter
        (fun v => v.domain) =
      (CPSAT.initState c10inp).vars.filter (fun v => v.domain) :=
  claim_C10_propagation_preserves_candidates (CPSAT.initState c10inp)
    (by decide)

/-- C9: `CPSATSolver.solve` never surfaces a hard failure — every
assignment the backtracking search returns satisfies the 70%-coverage
acceptance test `isAssignmentComplete`, and whenever the search returns no
assignment, `solve` returns the greedy constructive fallback's
`OptimizationResult` (no error path exists). -/
theorem claim_C9_no_hard_failure (inp : EngineInput) (jsLog : Nat → ℚ) :
    (∀ (st : CPSAT.CPState) (fuel : Nat) (m : List (String × Bool))
        (unassigned : List String) (a : List (String × Bool)),
      CPSAT.backtrackFuel inp st fuel m unassigned = some a →
      CPSAT.isAssignmentComplete inp st.vars a = true) ∧
    (CPSAT.backtrackingSearch inp
        (CPSAT.constraintPropagation (CPSAT.initState inp)) = none →
      CPSAT.solve inp jsLog =
        CPSAT.solveWithRelaxedConstraints inp jsLog) := by
  constructor
  · intro st fuel
    induction fuel with
    | zero =>
        intro m unassigned a h
        exact Option.noConfusion h
    | succ n ih =>
        intro m unassigned a h
        cases unassigned with
        | nil =>
            have h' : (if CPSAT.isAssignmentComplete inp st.vars m = true
                then some m else none) = some a := h
            by_cases hcomp : CPSAT.isAssignmentComplete inp st.vars m = true
            · rw [if_pos hcomp] at h'
              injection h' with hma
              subst hma
              exact hcomp
            · rw [if_neg hcomp] at h'
              exact Option.noConfusion h'
        | cons v0 vrest =>
            have h' : (match (if CPSAT.isConsistent st.cons
                  (mset m (CPSAT.chooseVariable st.cons (v0 :: vrest)) true)
                  (CPSAT.chooseVariable st.cons (v0 :: vrest)) = true then
                CPSAT.backtrackFuel inp st n
                  (mset m (CPSAT.chooseVariable st.cons (v0 :: vrest)) true)
                  (CPSAT.forwardCheck st.cons
                    (mset m (CPSAT.chooseVariable st.cons (v0 :: vrest)) true)
                    ((v0 :: vrest).filter
                      (fun x => x ≠ CPSAT.chooseVariable st.cons (v0 :: vrest))))
              else none) with
              | some a1 => some a1
              | none =>
                  if CPSAT.isConsistent st.cons
                      (mset m (CPSAT.chooseVariable st.cons (v0 :: vrest)) false)
                      (CPSAT.chooseVariable st.cons (v0 :: vrest)) = true then
                    CPSAT.backtrackFuel inp st n
                      (mset m (CPSAT.chooseVariable st.cons (v0 :: vrest)) false)
                      ((v0 :: vrest).filter
                        (fun x => x ≠ CPSAT.chooseVariable st.cons (v0 :: vrest)))
                  else none) = some a := h
            clear h
            split at h'
            · next a1 heq =>
                injection h' with hma
                subst hma
                by_cases hc : CPSAT.isConsistent st.cons
                    (mset m (CPSAT.chooseVariable st.cons (v0 :: vrest)) true)
                    (CPSAT.chooseVariable st.cons (v0 :: vrest)) = true
                · rw [if_pos hc] at heq
                  exact ih _ _ _ heq
                · rw [if_neg hc] at heq
                  exact Option.noConfusion heq
            · next heq =>
                by_cases hc : CPSAT.isConsistent st.cons
                    (mset m (CPSAT.chooseVariable st.cons (v0 :: vrest)) false)
                    (CPSAT.chooseVariable st.cons (v0 :: vrest)) = true
                · rw [if_pos hc] at h'
                  exact ih _ _ _ h'
                · rw [if_neg hc] at h'
                  exact Option.noConfusion h'
  · intro h
    simp only [CPSAT.solve, h]

/-- C9 witness: both halves of the theorem at concrete inputs — the
singleton assignment of `c9winp` passes the 70%-coverage test, and on
`c9xinp` (no usable teacher, hence no variables and no assignment) `solve`
returns the relaxed-constraints fallback result. -/
theorem claim_C9_no_hard_failure_witness :
    CPSAT.isAssignmentComplete c9winp c9st.vars c9m = true ∧
    CPSAT.solve c9xinp jsLog0 =
      CPSAT.solveWithRelaxedConstraints c9xinp jsLog0 := by
  have hcomp1 : CPSAT.isAssignmentComplete c9winp c9st.vars c9m = true := by
    simp only [CPSAT.isAssignmentComplete,
      show CPSAT.assignedSubjects c9st.vars c9m = [("s", "A")] from rfl,
      show CPSAT.requiredSubjects c9winp = [("s", "A")] from rfl]
    norm_num
  have hbt : CPSAT.backtrackFuel c9winp c9st 1 c9m [] = some c9m := by
    show (if CPSAT.isAssignmentComplete c9winp c9st.vars c9m = true
        then some c9m else none) = some c9m
    rw [if_pos hcomp1]
  have hcomp2 : CPSAT.isAssignmentComplete c9xinp
      (CPSAT.constraintPropagation (CPSAT.initState c9xinp)).vars [] =
        false := by
    simp only [CPSAT.isAssignmentComplete,
      show CPSAT.assignedSubjects
          (CPSAT.constraintPropagation (CPSAT.initState c9xinp)).vars [] = []
        from rfl,
      show CPSAT.requiredSubjects c9xinp = [("s", "A")] from rfl]
    norm_num
  have hsearch : CPSAT.backtrackingSearch c9xinp
      (CPSAT.constraintPropagation (CPSAT.initState c9xinp)) = none := by
    show (if CPSAT.isAssignmentComplete c9xinp
          (CPSAT.constraintPropagation (CPSAT.initState c9xinp)).vars [] = true
        then some [] else none) = none
    rw [hcomp2]
    simp
  exact ⟨(claim_C9_no_hard_failure c9winp jsLog0).1 c9st 1 c9m [] c9m hbt,
    (claim_C9_no_hard_failure c9xinp jsLog0).2 hsearch⟩
